import Mathlib

/-!
Verification development for the cider citation-checker worker.

The definitions below are a shallow embedding, in Lean, of the worker's
verification core:

* the data model of `packages/shared` (`Verdict`, `SourceResult`,
  `Verification`, `Footnote`),
* the verdict-response parser `parseVerificationResponse`
  (`apps/worker/src/verify.ts`),
* the cross-reference tool `getEarlierFootnotes`
  (`apps/worker/src/verify/tools/earlier-footnotes.ts`),
* the web-search rate limiter `WebSearchRateLimiter`
  (`apps/worker/src/verify/tools/rate-limiter.ts`),
* the search tool `performWebSearch`
  (`apps/worker/src/verify/tools/web-search.ts`),
* the PDF byte cache of `fetchPdfBytes`
  (`apps/worker/src/verify/tools/read-pdf-page.ts` and
  `apps/worker/src/verify.ts`),
* the bounded-concurrency orchestrator `verifyAllFootnotes`
  (`apps/worker/src/verify.ts`), modelled as an explicit event system whose
  events are task completions chosen by an arbitrary scheduler, and
* the progress durable object (`apps/worker/src/progress.ts`).

Host primitives that are not code of this repository (fetch, JSON.parse,
Date.now, Date.parse, the LLM) are modelled as explicit parameters or
outcome oracles; everything the repository itself computes is translated
directly from the TypeScript source.
-/

namespace Cider

/-- Closed verdict enumeration of `packages/shared` (type `Verdict`).
The source type has exactly these five values. -/
inductive Verdict where
  | supports
  | partially_supports
  | does_not_support
  | contradicts
  | source_unavailable
deriving DecidableEq, Repr

/-- Per-source result, `SourceResult` of `packages/shared`. -/
structure SourceResult where
  url : Option String := none
  title : Option String := none
  accessed : Bool
  verdict : Verdict
  explanation : String
deriving DecidableEq, Repr

/-- JSON values, used to model the objects produced by the host's
`JSON.parse` and consumed by `parseVerificationResponse`. Object fields
are kept in order; lookups take the first binding, matching a parsed JSON
object with distinct keys. -/
inductive Json where
  | null : Json
  | bool (b : Bool) : Json
  | num (q : ℚ) : Json
  | str (s : String) : Json
  | arr (xs : List Json) : Json
  | obj (fields : List (String × Json)) : Json
deriving Repr

/-- Tool-call audit record, `ToolCall` of `packages/shared`: the `input`
field is the JS `Record<string, unknown>` of arguments. -/
structure ToolCallRecord where
  tool : String
  input : List (String × Json)
  output : String
deriving Repr

/-- Verification result for one footnote, `Verification` of
`packages/shared`. `confidence` is a JS number, modelled as a rational. -/
structure VerificationRecord where
  footnoteId : String
  verdict : Verdict
  confidence : ℚ
  explanation : String
  sourceAccessed : Bool
  sourceUrl : Option String := none
  sources : Option (List SourceResult) := none
  trace : Option (List ToolCallRecord) := none
deriving Repr

/-- Footnote record as consumed by `verifyAllFootnotes`
(`apps/worker/src/verify.ts`): `index` is the 1-based footnote number,
`order` the optional document-order key. -/
structure FootnoteRec where
  id : String
  index : Int
  displayIndex : Option String := none
  order : Option Int := none
  claim : String
  citation : String
deriving DecidableEq, Repr

/-- Substring test on character lists, used to model the JS
`String.prototype.includes`. -/
def listContainsSub (hay pat : List Char) : Bool :=
  match hay with
  | [] => pat.isEmpty
  | _ :: t => pat.isPrefixOf hay || listContainsSub t pat

/-- JS `s.includes(pat)`. -/
def strIncludes (s pat : String) : Bool :=
  listContainsSub s.data pat.data

/-- JS `s.trim()`, modelled on the character list (the host builtin
strips leading and trailing whitespace). -/
def jsTrim (s : String) : String :=
  String.mk
    (((s.data.dropWhile Char.isWhitespace).reverse.dropWhile
      Char.isWhitespace).reverse)

/-- JS `s.startsWith(pre)`, modelled on the character list. -/
def strStartsWith (s pre : String) : Bool :=
  pre.data.isPrefixOf s.data

/-- JS `s.slice(0, n)`, modelled on the character list. -/
def jsTake (s : String) (n : Nat) : String :=
  String.mk (s.data.take n)

/-- JS truthiness of a JSON value (`null`, `false`, `0` and `""` are
falsy). -/
def Json.truthy : Json → Bool
  | .null => false
  | .bool b => b
  | .num q => q ≠ 0
  | .str s => s ≠ ""
  | .arr _ => true
  | .obj _ => true

/-- Property access `parsed.key` on a JSON object: `none` models the JS
`undefined`. -/
def Json.getField : Json → String → Option Json
  | .obj fields, key => fields.lookup key
  | _, _ => none

/-- Field read as a string; a missing or non-string field reads as
`none`. (`parseVerificationResponse` only ever feeds such fields to
string-typed slots or to `includes`, where a non-string behaves like an
unrecognized value.) -/
def Json.getStr (j : Json) (key : String) : Option String :=
  match j.getField key with
  | some (.str s) => some s
  | _ => none

/-- Field read as a string through the JS truthiness filter used by
`a.field || b`: the empty string is falsy and falls through. -/
def Json.getStrTruthy (j : Json) (key : String) : Option String :=
  match j.getStr key with
  | some s => if s = "" then none else some s
  | none => none

/-- JS `a || b` on optional strings already filtered for truthiness. -/
def jsOr (a b : Option String) : Option String :=
  match a with
  | some s => some s
  | none => b

/-- Valid verdict strings, the `validVerdicts` array of
`parseVerificationResponse` (`apps/worker/src/verify.ts`). Note that the
source lists exactly these five strings. -/
def validVerdicts : List String :=
  ["supports", "partially_supports", "does_not_support", "contradicts",
   "source_unavailable"]

/-- Verdict validation: `validVerdicts.includes(v) ? v :
"source_unavailable"`, applied to the overall verdict and to each
per-source verdict. A missing (`none`) value behaves like an unrecognized
one, as `includes(undefined)` is false. -/
def toVerdict : Option String → Verdict
  | some "supports" => .supports
  | some "partially_supports" => .partially_supports
  | some "does_not_support" => .does_not_support
  | some "contradicts" => .contradicts
  | some "source_unavailable" => .source_unavailable
  | _ => .source_unavailable

/-- The regex match `text.match(/\x7b[\s\S]*\x7d/)` on the character
list of the response: the (greedy) match runs from the first opening
brace to the last closing brace, and fails when no such span exists. -/
def extractJsonChars (cs : List Char) : Option (List Char) :=
  let fromBrace := cs.dropWhile (fun c => c ≠ '{')
  let upToClose := (fromBrace.reverse.dropWhile (fun c => c ≠ '}')).reverse
  if upToClose.isEmpty then none else some upToClose

/-- String form of `extractJsonChars`. -/
def extractJson (text : String) : Option String :=
  (extractJsonChars text.data).map (fun cs => String.mk cs)

/-- Mapping of one entry of `parsed.sources` (the `.map` callback in
`parseVerificationResponse`). A `null` entry would make the property
accesses throw, modelled as `none`. -/
def parseSourceEntry (s : Json) : Option SourceResult :=
  match s with
  | .null => none
  | _ =>
    some
      { title := s.getStr "title"
        url := s.getStrTruthy "url"
        accessed :=
          (match s.getField "accessed" with
           | none => false
           | some .null => false
           | some v => v.truthy)
        verdict := toVerdict (s.getStr "verdict")
        explanation := (s.getStrTruthy "explanation").getD "" }

/-- The `parsed.sources || []` coercion: a missing or falsy field reads
as the empty array, an array reads as itself, and a truthy non-array
value makes the subsequent `.map` throw (modelled as `none`). -/
def sourcesField (parsed : Json) : Option (List Json) :=
  match parsed.getField "sources" with
  | none => some []
  | some v =>
    match v with
    | .arr xs => some xs
    | .null => some []
    | .bool b => if b then none else some []
    | .num q => if q = 0 then some [] else none
    | .str s => if s = "" then some [] else none
    | .obj _ => none

/-- Body of the `try` block of `parseVerificationResponse` after
`JSON.parse` succeeded: field extraction and verdict validation. `none`
models a thrown error (caught by the enclosing `catch`). -/
def parseVerificationFromJson (parsed : Json) (footnoteId : String) :
    Option VerificationRecord :=
  match sourcesField parsed with
  | none => none
  | some rawSources =>
    match rawSources.mapM parseSourceEntry with
    | none => none
    | some sources =>
      let overallVerdict :=
        jsOr (parsed.getStrTruthy "overall_verdict")
          (parsed.getStr "verdict")
      let verdict := toVerdict overallVerdict
      let sourceAccessed :=
        sources.any (fun s => s.accessed) ||
          (match parsed.getField "source_accessed" with
           | none => false
           | some .null => false
           | some v => v.truthy)
      let primaryUrl :=
        jsOr ((sources.find? (fun s => s.url.isSome && s.accessed)).bind
                (fun s => s.url))
          (parsed.getStrTruthy "source_url")
      some
        { footnoteId := footnoteId
          verdict := verdict
          confidence :=
            (match parsed.getField "confidence" with
             | some (.num q) => q
             | _ => (1 : ℚ) / 2)
          explanation :=
            (parsed.getStrTruthy "explanation").getD
              "Unable to parse explanation"
          sourceAccessed := sourceAccessed
          sourceUrl := primaryUrl
          sources := if sources.length > 0 then some sources else none }

/-- The `catch` branch of `parseVerificationResponse`. -/
def parseFailureFallback (text footnoteId : String) : VerificationRecord :=
  { footnoteId := footnoteId
    verdict := .source_unavailable
    confidence := 0
    explanation :=
      "Failed to parse verification response" ++
        (if jsTrim text ≠ "" then ": " ++ jsTake (jsTrim text) 200 else "")
    sourceAccessed := false }

/-- The function `parseVerificationResponse(text, footnoteId)` of
`apps/worker/src/verify.ts`. The host builtin `JSON.parse` is passed in
as `jsonParse` (`none` models a thrown `SyntaxError`). -/
def parseVerificationResponse (jsonParse : String → Option Json)
    (text footnoteId : String) : VerificationRecord :=
  if jsTrim text = "" then parseFailureFallback text footnoteId
  else
    match extractJson text with
    | none => parseFailureFallback text footnoteId
    | some jsonText =>
      match jsonParse jsonText with
      | none => parseFailureFallback text footnoteId
      | some parsed =>
        match parseVerificationFromJson parsed footnoteId with
        | some v => v
        | none => parseFailureFallback text footnoteId

/-! Cross-reference lookup tool,
`apps/worker/src/verify/tools/earlier-footnotes.ts` (the refactored
module; the copy the worker wires in is modelled in the `VerifyTs`
namespace below). -/

/-- Context threaded to the tools for one claim's run
(`VerificationContext` of `apps/worker/src/verify/types.ts`):
`currentIndex` is the current footnote's position in the ordered list. -/
structure VerificationContext where
  allFootnotes : List FootnoteRec
  currentIndex : Int
deriving Repr

/-- Formatted footnote content returned by a successful lookup:
`**Footnote LABEL**:\nClaim: ...\nCitation: ...`. -/
def formatFootnoteText (f : FootnoteRec) : String :=
  let label := f.displayIndex.getD (toString f.index)
  "**Footnote " ++ label ++ "**:\nClaim: " ++ f.claim ++ "\nCitation: " ++
    f.citation

/-- Diagnostic string for a forward reference. -/
def notEarlierMessage (k : Int) : String :=
  s!"Footnote {k} is not earlier than the current footnote."

/-- Diagnostic string for an index that matches no footnote. -/
def notFoundMessage (k : Int) : String :=
  s!"Footnote {k} not found."

/-- The function `getEarlierFootnotes(context, specificIndex)` of
`apps/worker/src/verify/tools/earlier-footnotes.ts`: every branch returns
a string, never an exception. A forward reference
(`specificIndex > currentIndex + 1`) is refused before the lookup. -/
def getEarlierFootnotes (context : Option VerificationContext)
    (specificIndex : Option Int) : String :=
  match context with
  | none => "No document context available."
  | some ctx =>
    match specificIndex with
    | none => "Specify a footnote index to retrieve."
    | some k =>
      if k > ctx.currentIndex + 1 then notEarlierMessage k
      else
        match ctx.allFootnotes.find? (fun f => f.index == k) with
        | some f => formatFootnoteText f
        | none => notFoundMessage k

/-! Web-search rate limiter,
`apps/worker/src/verify/tools/rate-limiter.ts`. Times are milliseconds;
`Date.now()` is passed in as `now`, and the host `Date.parse` as an
explicit `dateParse` oracle. -/

/-- Default constructor arguments of `WebSearchRateLimiter`. -/
def DEFAULT_BASE_DELAY_MS : Nat := 2000

/-- Default maximum delay of `WebSearchRateLimiter`. -/
def DEFAULT_MAX_DELAY_MS : Nat := 30000

/-- JS `Number.parseInt(value, 10)`: skip leading whitespace, read an
optional sign and a decimal-digit prefix; no digit yields `NaN`
(modelled as `none`). -/
def jsParseInt (s : String) : Option Int :=
  let digitsPrefix : List Char → Option Nat := fun cs =>
    let ds := cs.takeWhile (fun c => c.isDigit)
    if ds.isEmpty then none
    else some (ds.foldl (fun acc c => 10 * acc + (c.toNat - 48)) 0)
  let cs := s.data.dropWhile (fun c => c.isWhitespace)
  match cs with
  | '-' :: rest => (digitsPrefix rest).map (fun n => -(n : Int))
  | '+' :: rest => (digitsPrefix rest).map (fun n => (n : Int))
  | _ => (digitsPrefix cs).map (fun n => (n : Int))

/-- The helper `parseRetryAfterMs(value)`: an integer header is seconds
(clamped at 0, scaled to ms); otherwise a parseable date yields the
positive delta to now; otherwise `null`. -/
def parseRetryAfterMs (dateParse : String → Option Int) (now : Nat)
    (value : Option String) : Option Nat :=
  match value with
  | none => none
  | some v =>
    match jsParseInt v with
    | some seconds => some ((seconds * 1000).toNat)
    | none =>
      match dateParse v with
      | some date => some ((date - (now : Int)).toNat)
      | none => none

/-- State and configuration of one `WebSearchRateLimiter` instance. -/
structure WebSearchRateLimiter where
  baseDelayMs : Nat
  maxDelayMs : Nat
  backoffMs : Nat
  nextAllowedAt : Nat
deriving DecidableEq, Repr

/-- A freshly constructed limiter with the default delays. -/
def WebSearchRateLimiter.init : WebSearchRateLimiter :=
  { baseDelayMs := DEFAULT_BASE_DELAY_MS
    maxDelayMs := DEFAULT_MAX_DELAY_MS
    backoffMs := 0
    nextAllowedAt := 0 }

/-- The `this.backoffMs` assignment chain of `on429(retryAfterHeader)`:
an explicit positive retry-after delay raises the backoff to it
(capped at `maxDelayMs`); otherwise a positive backoff doubles (capped);
otherwise the backoff starts at the base delay. -/
def on429Backoff (rl : WebSearchRateLimiter) (retryAfterMs : Option Nat) :
    Nat :=
  match retryAfterMs with
  | some r =>
    if 0 < r then min rl.maxDelayMs (max rl.backoffMs r)
    else if 0 < rl.backoffMs then min rl.maxDelayMs (rl.backoffMs * 2)
    else rl.baseDelayMs
  | none =>
    if 0 < rl.backoffMs then min rl.maxDelayMs (rl.backoffMs * 2)
    else rl.baseDelayMs

/-- The method `on429(retryAfterHeader)`: parse the header, update the
backoff, and always recompute `nextAllowedAt = now + backoffMs`. -/
def WebSearchRateLimiter.on429 (dateParse : String → Option Int)
    (now : Nat) (retryAfterHeader : Option String)
    (rl : WebSearchRateLimiter) : WebSearchRateLimiter :=
  let backoff :=
    on429Backoff rl (parseRetryAfterMs dateParse now retryAfterHeader)
  { rl with backoffMs := backoff, nextAllowedAt := now + backoff }

/-- The method `onSuccess()`: with no backoff it returns immediately
(leaving the whole state unchanged); otherwise the backoff halves
(floored) and `nextAllowedAt` is recomputed from `now`. -/
def WebSearchRateLimiter.onSuccess (now : Nat)
    (rl : WebSearchRateLimiter) : WebSearchRateLimiter :=
  if rl.backoffMs = 0 then rl
  else
    { rl with backoffMs := rl.backoffMs / 2
              nextAllowedAt := now + rl.backoffMs / 2 }

/-! Web search tool, `apps/worker/src/verify/tools/web-search.ts` (the
refactored module; the copy the worker wires in is modelled in the
`VerifyTs` namespace below). The network is modelled by a
`SearchFetchOutcome` oracle describing what the host `fetch` did for
this call. -/

/-- One raw entry of the Linkup response's `results` array. -/
structure SearchResultEntry where
  name : Option String := none
  url : Option String := none
  content : Option String := none
deriving DecidableEq, Repr

/-- What awaiting the response body did in the `response.ok` branch:
`response.json()` either throws (malformed body) or yields the parsed
payload, whose `results` field may be absent. -/
inductive SearchBody where
  | jsonError (msg : String)
  | payload (results : Option (List SearchResultEntry))
deriving Repr

/-- What the host `fetch` did for one `performWebSearch` call: it threw
(network error, abort on timeout), or returned a response with a status,
an optional `retry-after` header and a body. `detail` is what
`response.text()` yields in the failure branch (its own `.catch` turns a
second failure into `""`, so a plain string suffices). -/
inductive SearchFetchOutcome where
  | fetchError (msg : String)
  | response (status : Nat) (retryAfter : Option String) (detail : String)
      (body : SearchBody)
deriving Repr

/-- Output budget `MAX_WEB_SEARCH_CHARS`. -/
def MAX_WEB_SEARCH_CHARS : Nat := 10000

/-- The diagnostic string of the outer `catch`. -/
def searchErrorMessage (msg : String) : String :=
  "Search error: " ++ msg ++ ". Try a simpler query."

/-- The failure string for a non-2xx response. -/
def searchFailedMessage (status : Nat) (detail : String) : String :=
  let suffix := if detail ≠ "" then " (" ++ jsTake detail 200 ++ ")" else ""
  s!"Search failed with status {status}" ++ suffix ++
    ". Try a different search query."

/-- The no-results string. -/
def noResultsMessage (query : String) : String :=
  "No results found for \"" ++ query ++
    "\". Try:\n- Different keywords\n- Author names + title\n- Removing special characters\n- Searching for the publication name"

/-- Formatting of the `results` lines (`**Results:**` header plus the
first five entries), then the join and the final truncation. -/
def formatSearchResults (query : String)
    (results : Option (List SearchResultEntry)) : String :=
  let lines :=
    match results with
    | some rs =>
      if rs.length > 0 then
        "**Results:**" ::
          ((rs.take 5).enum.map (fun p =>
            let r := p.2
            let title := (match r.name with
              | some s => if s ≠ "" then s else "Result"
              | none => "Result")
            let url := (match r.url with
              | some s => if s ≠ "" then s else ""
              | none => "")
            let content := (match r.content with
              | some s => if s ≠ "" then "\n   " ++ s else ""
              | none => "")
            s!"{p.1 + 1}. " ++ title ++ "\n   " ++ url ++ content))
      else []
    | none => []
  if lines.length = 0 then noResultsMessage query
  else
    let output := String.intercalate "\n" lines
    if output.length > MAX_WEB_SEARCH_CHARS then
      (jsTake output MAX_WEB_SEARCH_CHARS) ++
        s!"\n\n[Results truncated to {MAX_WEB_SEARCH_CHARS} characters]"
    else output

/-- The function `performWebSearch(query, deps)` of
`apps/worker/src/verify/tools/web-search.ts`, returning the string fed
back to the model together with the rate limiter's state after the call
(a 429 feeds the `retry-after` header to `on429`; a success calls
`onSuccess`). Every path returns normally: the body is one `try` whose
`catch` yields the `searchErrorMessage` diagnostic. -/
def performWebSearch (dateParse : String → Option Int) (now : Nat)
    (query : String) (apiKey : Option String)
    (rl : WebSearchRateLimiter) (outcome : SearchFetchOutcome) :
    String × WebSearchRateLimiter :=
  match apiKey with
  | none => ("Search unavailable: LINKUP_API_KEY is not set.", rl)
  | some _ =>
    match outcome with
    | .fetchError msg => (searchErrorMessage msg, rl)
    | .response status retryAfter detail body =>
      if ¬ (200 ≤ status ∧ status ≤ 299) then
        let rl' :=
          if status = 429 then rl.on429 dateParse now retryAfter else rl
        (searchFailedMessage status detail, rl')
      else
        let rl' := rl.onSuccess now
        match body with
        | .jsonError msg => (searchErrorMessage msg, rl')
        | .payload results => (formatSearchResults query results, rl')

/-! Tool implementations the worker actually executes. The entry point
`apps/worker/src/index.ts` imports `verifyAllFootnotes` from
`apps/worker/src/verify.ts`, whose `handleToolCall` dispatches
`get_earlier_footnotes` and `web_search` to the inline functions of that
same file (modelled in this namespace); the refactored copies under
`apps/worker/src/verify/tools/` (modelled above) and their dispatcher
`createToolHandler` are imported by no module of the repository. -/

namespace VerifyTs

/-- JS `Array.prototype.slice(start, end)` on integer arguments: each
bound is clamped to `[0, length]` (a negative bound counts back from the
end), and an empty slice results when the clamped end is not past the
clamped start. -/
def jsSlice {α : Type} (l : List α) (start stop : Int) : List α :=
  let len : Int := l.length
  let norm : Int → Nat := fun i =>
    if i < 0 then (len + i).toNat else (min i len).toNat
  (l.drop (norm start)).take (norm stop - norm start)

/-- The inline `getEarlierFootnotes(count, specificIndex)` of
`apps/worker/src/verify.ts` (lines 569-602), the copy `handleToolCall`
executes; the module global `currentContext` is passed explicitly. With
a `specificIndex` argument it looks the footnote up by index directly:
this path has no `specificIndex > currentIndex + 1` check, unlike the
refactored `getEarlierFootnotes` above. Without one it formats the
`count` footnotes before the current position. Every branch returns a
string, never an exception. -/
def getEarlierFootnotes (context : Option VerificationContext)
    (count : Int) (specificIndex : Option Int) : String :=
  match context with
  | none => "No document context available."
  | some ctx =>
    match specificIndex with
    | some k =>
      match ctx.allFootnotes.find? (fun f => f.index == k) with
      | some f => formatFootnoteText f
      | none => notFoundMessage k
    | none =>
      let previousFootnotes :=
        jsSlice ctx.allFootnotes (max 0 (ctx.currentIndex - count))
          ctx.currentIndex
      if previousFootnotes.length = 0 then
        "No earlier footnotes available (this is the first footnote)."
      else
        "Earlier footnotes (" ++ toString previousFootnotes.length ++
          " retrieved):\n\n" ++
          String.intercalate "\n\n---\n\n"
            (previousFootnotes.map formatFootnoteText)

/-- The inline `performWebSearch(query)` of `apps/worker/src/verify.ts`
(lines 262-334), the copy `handleToolCall` executes. It is the tools
copy minus every rate-limiter interaction — no `wait()` before the
fetch, no `on429` on a 429 response, no `onSuccess` — so a 429 falls
through to the generic non-2xx failure string and the `retry-after`
header is read by nothing. The failure strings, result formatting and
the outer try/catch are character-identical to the tools copy, so the
shared string builders above are reused. -/
def performWebSearch (query : String) (apiKey : Option String)
    (outcome : SearchFetchOutcome) : String :=
  match apiKey with
  | none => "Search unavailable: LINKUP_API_KEY is not set."
  | some _ =>
    match outcome with
    | .fetchError msg => searchErrorMessage msg
    | .response status _retryAfter detail body =>
      if ¬ (200 ≤ status ∧ status ≤ 299) then
        searchFailedMessage status detail
      else
        match body with
        | .jsonError msg => searchErrorMessage msg
        | .payload results => formatSearchResults query results

end VerifyTs

/-! PDF byte cache, the `fetchPdfBytes` helper of
`apps/worker/src/verify/tools/read-pdf-page.ts` (the copy in
`apps/worker/src/verify.ts` has identical cache logic). The module-level
`pdfCache` Map is modelled as an association list in insertion order
(oldest first), matching the iteration order of a JS Map; raw PDF bytes
are an abstract type `β`. -/

/-- Cache capacity `PDF_CACHE_LIMIT`. -/
def PDF_CACHE_LIMIT : Nat := 3

/-- URL normalization at the top of `fetchPdfBytes`. -/
def cleanPdfUrl (url : String) : String :=
  let t := jsTrim url
  if ¬ strStartsWith t "http://" && ¬ strStartsWith t "https://" then
    "https://" ++ t
  else t

/-- What the host `fetch` did for one PDF download: threw (this
propagates out of `fetchPdfBytes`, which has no `try`), or returned a
response with a status, a content type and body bytes. -/
inductive PdfFetchOutcome (β : Type) where
  | fetchError (msg : String)
  | response (status : Nat) (contentType : String) (bytes : β)

/-- Return value of one `fetchPdfBytes` step: the thrown error, or the
`ArrayBuffer | string` union of the source. -/
inductive PdfFetchResult (β : Type) where
  | thrown (msg : String)
  | bytes (b : β)
  | failure (msg : String)

/-- The function `fetchPdfBytes(url)`: returns the result, the cache
after the call, and whether a network fetch was performed at all. -/
def fetchPdfBytes {β : Type} (cache : List (String × β)) (url : String)
    (outcome : PdfFetchOutcome β) :
    PdfFetchResult β × List (String × β) × Bool :=
  let cleanUrl := cleanPdfUrl url
  match cache.lookup cleanUrl with
  | some cached => (.bytes cached, cache, false)
  | none =>
    match outcome with
    | .fetchError msg => (.thrown msg, cache, true)
    | .response status contentType bytes =>
      if ¬ (200 ≤ status ∧ status ≤ 299) then
        if status = 403 ∨ status = 401 then
          (.failure
            s!"Access denied (HTTP {status}). This PDF may be paywalled.",
            cache, true)
        else if status = 404 then
          (.failure "PDF not found (HTTP 404). The URL may be outdated.",
            cache, true)
        else
          (.failure s!"Failed to fetch PDF: HTTP {status}.", cache, true)
      else if ¬ strIncludes contentType "application/pdf" then
        (.failure
          ("Expected a PDF but got content-type: " ++
            (if contentType ≠ "" then contentType else "unknown") ++ "."),
          cache, true)
      else
        let evicted :=
          if cache.length ≥ PDF_CACHE_LIMIT then cache.tail else cache
        (.bytes bytes, evicted ++ [(cleanUrl, bytes)], true)

/-- Cache evolution over a whole sequence of `fetchPdfBytes` calls,
starting from the module-initial empty Map. -/
def runPdfFetches {β : Type} (ops : List (String × PdfFetchOutcome β)) :
    List (String × β) :=
  ops.foldl (fun cache op => (fetchPdfBytes cache op.1 op.2).2.1) []

/-! Concurrency orchestrator, `verifyAllFootnotes` of
`apps/worker/src/verify.ts`. The orchestrator launches one async task
per footnote through a bounded worker pool (`runNext`, concurrency 5);
each task writes its verification into the pre-sized `results` array at
the task's own index and the shared promise resolves when the last
active task finishes with no footnote left to start.

The embedding makes the event structure explicit: a scheduler state
records the `nextIndex` / `active` counters, the `results` array, the
set of launched-but-unfinished task indices, and the resolved value (if
any). The launch loop `runNext` is deterministic; the only
nondeterminism is which in-flight task completes next, chosen by an
arbitrary list of completion events. What a task writes is its
footnote's `outcome`, covering the whole primary/timeout/Quick-Verify
cascade of the task body. -/

/-- Sort key of the `sort` comparator: `a.order ?? a.index`. -/
def sortKey (f : FootnoteRec) : Int :=
  f.order.getD f.index

/-- Stable insertion for `sortFootnotes`: the element is placed after
every already-sorted element whose key is `≤` its own, so elements with
equal keys keep their original relative order. -/
def insertByKey (x : FootnoteRec) : List FootnoteRec → List FootnoteRec
  | [] => [x]
  | y :: ys =>
    if sortKey y ≤ sortKey x then y :: insertByKey x ys else x :: y :: ys

/-- The `[...footnotes].sort((a, b) => (a.order ?? a.index) - (b.order ??
b.index))` call, modelled as a stable ascending sort by `sortKey`
(JS `Array.prototype.sort` is stable). -/
def sortFootnotes : List FootnoteRec → List FootnoteRec
  | [] => []
  | x :: xs => insertByKey x (sortFootnotes xs)

/-- A dummy footnote for out-of-range `getD` reads (never reached on the
indices the scheduler uses). -/
def dummyFootnote : FootnoteRec :=
  { id := "", index := 0, claim := "", citation := "" }

/-- Outcome of one promise in a task body: it resolved with a
verification, or rejected with an error message. -/
inductive RunResult where
  | ok (v : VerificationRecord)
  | err (msg : String)

/-- The rejection message of `withTimeout` as used around
`verifyFootnote`. -/
def verificationTimeoutMessage (timeoutMs : Nat) : String :=
  "Verification timed out after " ++ (toString timeoutMs ++ "ms")

/-- The rejection message of `withTimeout` as used around
`quickVerifyFootnote`. -/
def quickTimeoutMessage : String :=
  "Quick verification timed out after 15000ms"

/-- Default per-item timeout (`options?.timeoutMs ?? 60000`, and the
value passed by `processDocument`). -/
def DEFAULT_VERIFY_TIMEOUT_MS : Nat := 60000

/-- The Quick Verify pass's own timeout (the literal `15000` in
`verifyAllFootnotes`). -/
def QUICK_VERIFY_TIMEOUT_MS : Nat := 15000

/-- The failure-placeholder verification written by the `catch` branches
of the task body. -/
def placeholderVerification (footnoteId msg : String) :
    VerificationRecord :=
  { footnoteId := footnoteId
    verdict := .source_unavailable
    confidence := 0
    explanation := "Verification error: " ++ msg
    sourceAccessed := false }

/-- The task body of `verifyAllFootnotes` for one footnote: the primary
`verifyFootnote` run under `withTimeout`, the `error.message.includes
("timed out")` test, the Quick Verify fallback under its own timeout,
and the `source_unavailable` placeholders of the two `catch` arms. -/
def taskResult (f : FootnoteRec) (primary fallback : RunResult) :
    VerificationRecord :=
  match primary with
  | .ok v => v
  | .err msg =>
    if strIncludes msg "timed out" then
      match fallback with
      | .ok v => v
      | .err fallbackMsg => placeholderVerification f.id fallbackMsg
    else placeholderVerification f.id msg

/-- Scheduler state of one `verifyAllFootnotes` call. -/
structure SchedState where
  nextIndex : Nat
  active : Nat
  results : List (Option VerificationRecord)
  pending : List Nat
  resolvedWith : Option (List VerificationRecord)

/-- The worker-pool width (`concurrencyLimit = 5`). -/
def concurrencyLimit : Nat := 5

/-- The `runNext` while loop: launch tasks while a worker slot is free
and an unstarted footnote remains. Written with explicit fuel (the loop
runs at most `N - nextIndex` iterations, as each one consumes a
footnote), so that the definition is structural and computable. -/
def runNextAux (N : Nat) : Nat → SchedState → SchedState
  | 0, s => s
  | fuel + 1, s =>
    if s.active < concurrencyLimit ∧ s.nextIndex < N then
      runNextAux N fuel
        { s with nextIndex := s.nextIndex + 1
                 active := s.active + 1
                 pending := s.nextIndex :: s.pending }
    else s

/-- The `runNext` call with adequate fuel. -/
def runNext (N : Nat) (s : SchedState) : SchedState :=
  runNextAux N (N - s.nextIndex) s

/-- One completion event: in-flight task `i` finishes. Its verification
is written at index `i` of `results`, the worker count drops, and either
the whole batch resolves (`nextIndex ≥ N && active === 0`) with the
`filter(Boolean)` of the results array, or `runNext` refills the pool.
A completion for a task that is not in flight, or after resolution,
changes nothing (no such event can occur in the real execution; the
guard keeps the step function total). -/
def completeTask (N : Nat) (outcome : Nat → VerificationRecord)
    (s : SchedState) (i : Nat) : SchedState :=
  if s.resolvedWith.isSome then s
  else if i ∈ s.pending then
    let results := s.results.set i (some (outcome i))
    let pending := s.pending.erase i
    let active := s.active - 1
    if N ≤ s.nextIndex ∧ active = 0 then
      { nextIndex := s.nextIndex, active := active, results := results
        pending := pending, resolvedWith := some (results.filterMap id) }
    else
      runNext N
        { nextIndex := s.nextIndex, active := active, results := results
          pending := pending, resolvedWith := s.resolvedWith }
  else s

/-- The state after the synchronous part of `verifyAllFootnotes`: the
pre-sized results array is all-undefined and the initial `runNext()` has
run. -/
def initialSchedState (N : Nat) : SchedState :=
  runNext N
    { nextIndex := 0, active := 0, results := List.replicate N none
      pending := [], resolvedWith := none }

/-- A whole run of the scheduler under a given completion order. -/
def runSched (N : Nat) (outcome : Nat → VerificationRecord)
    (events : List Nat) : SchedState :=
  events.foldl (completeTask N outcome) (initialSchedState N)

/-- Per-position outcome of `verifyAllFootnotes` over the sorted
footnote list, as written by the task bodies. -/
def footnoteOutcome (footnotes : List FootnoteRec)
    (primary fallback : Nat → RunResult) (i : Nat) : VerificationRecord :=
  taskResult ((sortFootnotes footnotes).getD i dummyFootnote) (primary i)
    (fallback i)

/-- The `verifyAllFootnotes(apiKey, linkupApiKey, footnotes, options)`
call, as the scheduler it sets up: `primary`/`fallback` give, per sorted
position, what the wrapped `verifyFootnote` and `quickVerifyFootnote`
promises did, and `events` is the completion order. -/
def verifyAllFootnotesModel (footnotes : List FootnoteRec)
    (primary fallback : Nat → RunResult) (events : List Nat) : SchedState :=
  runSched (sortFootnotes footnotes).length
    (footnoteOutcome footnotes primary fallback) events

/-- The document-ordered result list the orchestrator is meant to
produce: one verification per sorted footnote, at its own position. -/
def canonicalResults (N : Nat) (outcome : Nat → VerificationRecord) :
    List VerificationRecord :=
  (List.range N).map outcome

/-- Structural invariant of the scheduler: the counters match the task
set, launched tasks are exactly those below `nextIndex`, and the results
array holds exactly the verifications of the finished tasks. -/
structure SchedInv (N : Nat) (outcome : Nat → VerificationRecord)
    (s : SchedState) : Prop where
  hlen : s.results.length = N
  hnext : s.nextIndex ≤ N
  hact : s.active = s.pending.length
  hnodup : s.pending.Nodup
  hmem : ∀ i ∈ s.pending, i < s.nextIndex
  hdone : ∀ i, i < s.nextIndex → i ∉ s.pending →
    s.results.get? i = some (some (outcome i))
  htodo : ∀ i, i < N → (s.nextIndex ≤ i ∨ i ∈ s.pending) →
    s.results.get? i = some none

/-- Full invariant: the structural one, plus liveness (an unresolved
nonempty batch always has a task in flight) and soundness of the
resolved value. -/
structure SchedFullInv (N : Nat) (outcome : Nat → VerificationRecord)
    (s : SchedState) : Prop where
  toSchedInv : SchedInv N outcome s
  hlive : s.resolvedWith = none → 0 < N → s.pending ≠ []
  hok : ∀ out, s.resolvedWith = some out → out = canonicalResults N outcome

/-- Termination measure of a scheduler state: unstarted footnotes plus
in-flight tasks. -/
def schedRemaining (N : Nat) (s : SchedState) : Nat :=
  (N - s.nextIndex) + s.pending.length

/-! Progress broadcast actor, `ProgressDurableObject` of
`apps/worker/src/progress.ts`. WebSocket subscribers are abstract
handles (`Nat`); whether `ws.send` succeeds for a given subscriber
during one broadcast is an explicit `sendOk` oracle. The key-value
`ProgressStore` backend is embedded (`createKvStore`); the SQL backend
implements the same single-slot `get`/`set` contract. -/

/-- Document status, `Document["status"]` of `packages/shared`. -/
inductive DocStatus where
  | processing
  | complete
  | failed
deriving DecidableEq, Repr

/-- Incoming progress payload, `ProgressUpdate` of
`apps/worker/src/progress.ts`. -/
structure ProgressUpdate where
  status : DocStatus
  footnoteCount : Nat
  verifications : List VerificationRecord
  error : Option String := none
  updatedAt : Option String := none
deriving Repr

/-- Stored snapshot, `ProgressSnapshot`: an update with its timestamp
stamped. -/
structure ProgressSnapshot where
  status : DocStatus
  updatedAt : String
  footnoteCount : Nat
  verifications : List VerificationRecord
  error : Option String := none
deriving Repr

/-- The kv store's `set(payload)`: stamp `updatedAt` when absent
(`payload.updatedAt ?? new Date().toISOString()`, the current time being
the `nowIso` parameter), persist, and return the canonical stored
snapshot. -/
def kvStoreSet (payload : ProgressUpdate) (nowIso : String) :
    ProgressSnapshot :=
  { status := payload.status
    updatedAt := payload.updatedAt.getD nowIso
    footnoteCount := payload.footnoteCount
    verifications := payload.verifications
    error := payload.error }

/-- The push message `{type: "progress", data: snapshot}` written to a
subscriber socket. -/
structure PushMessage where
  data : ProgressSnapshot
deriving Repr

/-- In-memory state of one durable object instance: the stored snapshot
slot and the `sessions` set in insertion order. -/
structure ActorState where
  stored : Option ProgressSnapshot
  sessions : List Nat
deriving Repr

/-- The `broadcast` loop body: iterate over the sessions in order,
`try { ws.send(message) } catch { this.sessions.delete(ws) }`. Returns
the subscribers the message reached and the surviving session set. -/
def broadcastLoop (sendOk : Nat → Bool) : List Nat → List Nat × List Nat
  | [] => ([], [])
  | ws :: rest =>
    let tail := broadcastLoop sendOk rest
    if sendOk ws then (ws :: tail.1, ws :: tail.2) else (tail.1, tail.2)

/-- The `POST /progress` handler of `ProgressDurableObject.fetch`:
`setProgress(payload)` then `broadcast(snapshot)`. Returns the new actor
state, the canonical snapshot that was stored and broadcast, and the
list of subscribers that received it. -/
def handleProgressPost (sendOk : Nat → Bool) (payload : ProgressUpdate)
    (nowIso : String) (st : ActorState) :
    ActorState × ProgressSnapshot × List Nat :=
  let snapshot := kvStoreSet payload nowIso
  let sent := broadcastLoop sendOk st.sessions
  ({ stored := some snapshot, sessions := sent.2 }, snapshot, sent.1)

/-- The `GET /progress` handler: `Response.json(snapshot ?? null)` — an
HTTP 200 whose body is the snapshot or JSON `null`, never an error
status. -/
def handleProgressGet (st : ActorState) : Nat × Option ProgressSnapshot :=
  (200, st.stored)

/-- The WebSocket upgrade path of `fetch`: accept the socket, add it to
`sessions`, then `sendSnapshot(server)` — which returns without sending
anything when no snapshot has ever been stored. Returns the new state
and the messages pushed to the new subscriber during attach. -/
def handleAttach (ws : Nat) (st : ActorState) :
    ActorState × List PushMessage :=
  let st' : ActorState := { st with sessions := st.sessions ++ [ws] }
  match st.stored with
  | none => (st', [])
  | some snapshot => (st', [{ data := snapshot }])

/-- Two-footnote context fixture (footnotes 1 and 2, current position
at the first footnote), used to evaluate the cross-reference bound on a
concrete input. -/
def sampleContext : VerificationContext :=
  { allFootnotes :=
      [{ id := "f1", index := 1, claim := "c1", citation := "s1" },
       { id := "f2", index := 2, claim := "c2", citation := "s2" }],
    currentIndex := 0 }

/-- Prose prefix of a concrete model response used to evaluate the
parser on a prose-plus-JSON input. -/
def proseBefore : String := "Here is my assessment. "

/-- Embedded JSON object of that concrete response (braces written as
escapes). -/
def jsonPayload : String :=
  "\x7b\"overall_verdict\": \"supports\", \"confidence\": 1, \"explanation\": \"ok\", \"sources\": []\x7d"

/-- Prose suffix of that concrete response. -/
def proseAfter : String := " Hope that helps!"

/-- What the host `JSON.parse` yields on `jsonPayload`. -/
def jsonPayloadValue : Json :=
  Json.obj
    [("overall_verdict", Json.str "supports"),
     ("confidence", Json.num 1),
     ("explanation", Json.str "ok"),
     ("sources", Json.arr [])]

/-- A `JSON.parse` oracle defined at exactly `jsonPayload`. -/
def jsonPayloadParse : String → Option Json :=
  fun s => if s = jsonPayload then some jsonPayloadValue else none

/-- A model response whose overall and per-source verdicts are the
string `not_applicable` (braces written as escapes). -/
def notApplicableText : String :=
  "\x7b\"overall_verdict\": \"not_applicable\", \"confidence\": 1, \"explanation\": \"overall\", \"sources\": [\x7b\"accessed\": true, \"verdict\": \"not_applicable\", \"explanation\": \"na\"\x7d]\x7d"

/-- What the host `JSON.parse` yields on `notApplicableText`. -/
def notApplicableValue : Json :=
  Json.obj
    [("overall_verdict", Json.str "not_applicable"),
     ("confidence", Json.num 1),
     ("explanation", Json.str "overall"),
     ("sources",
       Json.arr
         [Json.obj
           [("accessed", Json.bool true),
            ("verdict", Json.str "not_applicable"),
            ("explanation", Json.str "na")]])]

/-- A `JSON.parse` oracle defined at exactly `notApplicableText`. -/
def notApplicableParse : String → Option Json :=
  fun s => if s = notApplicableText then some notApplicableValue else none

/-! Theorems. -/

/-- C6 counterexample: the claim says every rate-limiter transition
recomputes `nextAllowedAt` as `now + backoffMs`, but `onSuccess` with a
zero backoff returns before the recompute: calling it at `now = 5` on a
fresh limiter leaves `nextAllowedAt` at `0`, not `5 + 0`. -/
theorem rateLimiter_onSuccess_stale_nextAllowedAt :
    (WebSearchRateLimiter.onSuccess 5 WebSearchRateLimiter.init).nextAllowedAt ≠
      5 + (WebSearchRateLimiter.onSuccess 5
        WebSearchRateLimiter.init).backoffMs := by
  decide

/-- C6 (amended): `on429` with an explicit positive retry-after delay
sets `backoffMs = min(maxDelay, max(backoffMs, retryAfterDelay))`;
`on429` with no parseable (or nonpositive) retry-after delay doubles a
positive backoff capped at the maximum — a strict increase whenever the
backoff was below the maximum — or starts it at the base delay;
`onSuccess` halves a positive backoff (a strict decrease) and is the
identity at zero; and every state-changing transition recomputes
`nextAllowedAt` as `now + backoffMs`. -/
theorem rateLimiter_transitions (dateParse : String → Option Int)
    (now : Nat) (header : Option String) (rl : WebSearchRateLimiter) :
    (∀ r, parseRetryAfterMs dateParse now header = some r → 0 < r →
      (rl.on429 dateParse now header).backoffMs =
          min rl.maxDelayMs (max rl.backoffMs r) ∧
        (rl.on429 dateParse now header).nextAllowedAt =
          now + (rl.on429 dateParse now header).backoffMs) ∧
    (parseRetryAfterMs dateParse now header = none ∨
        parseRetryAfterMs dateParse now header = some 0 →
      ((rl.backoffMs = 0 →
          (rl.on429 dateParse now header).backoffMs = rl.baseDelayMs) ∧
        (0 < rl.backoffMs →
          (rl.on429 dateParse now header).backoffMs =
            min rl.maxDelayMs (rl.backoffMs * 2)) ∧
        (0 < rl.backoffMs → rl.backoffMs < rl.maxDelayMs →
          rl.backoffMs < (rl.on429 dateParse now header).backoffMs) ∧
        (rl.on429 dateParse now header).nextAllowedAt =
          now + (rl.on429 dateParse now header).backoffMs)) ∧
    ((rl.on429 dateParse now header).backoffMs ≤
        max rl.maxDelayMs rl.baseDelayMs) ∧
    (0 < rl.backoffMs →
      (rl.onSuccess now).backoffMs = rl.backoffMs / 2 ∧
        (rl.onSuccess now).backoffMs < rl.backoffMs ∧
        (rl.onSuccess now).nextAllowedAt =
          now + (rl.onSuccess now).backoffMs) ∧
    (rl.backoffMs = 0 → rl.onSuccess now = rl) := by
  have hback : (rl.on429 dateParse now header).backoffMs =
      on429Backoff rl (parseRetryAfterMs dateParse now header) := rfl
  have hnextEq : (rl.on429 dateParse now header).nextAllowedAt =
      now + (rl.on429 dateParse now header).backoffMs := rfl
  have hcap : ∀ v, on429Backoff rl v ≤ max rl.maxDelayMs rl.baseDelayMs := by
    intro v
    rcases v with _ | r
    · by_cases hpos : 0 < rl.backoffMs
      · simp only [on429Backoff, if_pos hpos]
        exact le_max_of_le_left (Nat.min_le_left _ _)
      · simp only [on429Backoff, if_neg hpos]
        exact le_max_right _ _
    · by_cases hr : 0 < r
      · simp only [on429Backoff, if_pos hr]
        exact le_max_of_le_left (Nat.min_le_left _ _)
      · by_cases hpos : 0 < rl.backoffMs
        · simp only [on429Backoff, if_neg hr, if_pos hpos]
          exact le_max_of_le_left (Nat.min_le_left _ _)
        · simp only [on429Backoff, if_neg hr, if_neg hpos]
          exact le_max_right _ _
  refine ⟨?_, ?_, ?_, ?_, ?_⟩
  · intro r hparse hr
    refine ⟨?_, hnextEq⟩
    rw [hback, hparse]
    simp only [on429Backoff, if_pos hr]
  · intro hparse
    have hdoubling : on429Backoff rl
        (parseRetryAfterMs dateParse now header) =
        (if 0 < rl.backoffMs then min rl.maxDelayMs (rl.backoffMs * 2)
         else rl.baseDelayMs) := by
      rcases hparse with hparse | hparse <;> rw [hparse] <;>
        simp only [on429Backoff, lt_irrefl, if_false]
    refine ⟨?_, ?_, ?_, hnextEq⟩
    · intro h0
      rw [hback, hdoubling, if_neg (by omega)]
    · intro hpos
      rw [hback, hdoubling, if_pos hpos]
    · intro hpos hlt
      rw [hback, hdoubling, if_pos hpos]
      exact lt_min hlt (by omega)
  · rw [hback]
    exact hcap _
  · intro hpos
    have hne : ¬ rl.backoffMs = 0 := by omega
    refine ⟨?_, ?_, ?_⟩
    · simp [WebSearchRateLimiter.onSuccess, hne]
    · simp only [WebSearchRateLimiter.onSuccess, if_neg hne]
      exact Nat.div_lt_self hpos (by decide)
    · simp [WebSearchRateLimiter.onSuccess, hne]
  · intro h0
    simp [WebSearchRateLimiter.onSuccess, h0]

/-- C6 witness: the amended transition laws evaluated on a limiter with
a 2000 ms backoff at `now = 100`, under a 429 with no retry-after
header, and under a success. -/
theorem rateLimiter_transitions_witness :
    (WebSearchRateLimiter.on429 (fun _ => none) 100 none
        ⟨2000, 30000, 2000, 0⟩).backoffMs = 4000 ∧
      (WebSearchRateLimiter.on429 (fun _ => none) 100 none
        ⟨2000, 30000, 2000, 0⟩).nextAllowedAt = 4100 ∧
      (WebSearchRateLimiter.onSuccess 100
        ⟨2000, 30000, 2000, 0⟩).backoffMs = 1000 := by
  have h := rateLimiter_transitions (fun _ => none) 100 none
    ⟨2000, 30000, 2000, 0⟩
  have h2 := h.2.1 (Or.inl rfl)
  have hdouble := h2.2.1 (by decide)
  have hnext := h2.2.2.2
  have hsucc := (h.2.2.2.1 (by decide)).1
  refine ⟨?_, ?_, ?_⟩
  · rw [hdouble]
    decide
  · rw [hnext, hdouble]
    decide
  · rw [hsucc]
    decide

/-- Error paths of the refactored tools `performWebSearch` (the module
`verify/tools/web-search.ts`, which no module of the worker imports): a
total function into result strings — no branch escapes as an exception.
On an HTTP 429 it feeds the response's `Retry-After` hint into the rate
limiter's `on429` and hands the caller the failure string; on a non-2xx
status other than 429 it returns the same kind of diagnostic string with
the limiter untouched; a fetch throw or a malformed response body is
caught and becomes the `Search error` diagnostic. -/
theorem toolsWebSearch_error_paths (dateParse : String → Option Int)
    (now : Nat) (query apiKeyVal : String) (rl : WebSearchRateLimiter)
    (retryAfter : Option String) (detail : String) (body : SearchBody)
    (msg : String) :
    performWebSearch dateParse now query (some apiKeyVal) rl
        (.response 429 retryAfter detail body) =
      (searchFailedMessage 429 detail, rl.on429 dateParse now retryAfter) ∧
    (∀ status, ¬ (200 ≤ status ∧ status ≤ 299) → status ≠ 429 →
      performWebSearch dateParse now query (some apiKeyVal) rl
          (.response status retryAfter detail body) =
        (searchFailedMessage status detail, rl)) ∧
    performWebSearch dateParse now query (some apiKeyVal) rl
        (.fetchError msg) = (searchErrorMessage msg, rl) ∧
    performWebSearch dateParse now query (some apiKeyVal) rl
        (.response 200 retryAfter detail (.jsonError msg)) =
      (searchErrorMessage msg, rl.onSuccess now) ∧
    (∀ limiter outcome, (performWebSearch dateParse now query none limiter
        outcome) =
      ("Search unavailable: LINKUP_API_KEY is not set.", limiter)) := by
  refine ⟨?_, ?_, rfl, ?_, fun _ _ => rfl⟩
  · have hcond : ¬ (200 ≤ 429 ∧ 429 ≤ 299) := by omega
    simp only [performWebSearch, if_pos hcond, if_pos rfl, if_true]
  · intro status hstatus hne
    simp only [performWebSearch, if_pos hstatus, if_neg hne]
  · have hcond : ¬ ¬ (200 ≤ 200 ∧ 200 ≤ 299) := by omega
    simp only [performWebSearch, if_neg hcond]

/-- The tools copy's three error paths evaluated on a concrete limiter,
with a 429 carrying `Retry-After: 5`, a 500, and a thrown fetch. -/
theorem toolsWebSearch_error_paths_check :
    performWebSearch (fun _ => none) 0 "q" (some "key")
        WebSearchRateLimiter.init (.response 429 (some "5") "busy"
          (.payload none)) =
      (searchFailedMessage 429 "busy",
        WebSearchRateLimiter.init.on429 (fun _ => none) 0 (some "5")) ∧
    performWebSearch (fun _ => none) 0 "q" (some "key")
        WebSearchRateLimiter.init (.response 500 none "oops"
          (.payload none)) =
      (searchFailedMessage 500 "oops", WebSearchRateLimiter.init) ∧
    performWebSearch (fun _ => none) 0 "q" (some "key")
        WebSearchRateLimiter.init (.fetchError "network down") =
      (searchErrorMessage "network down", WebSearchRateLimiter.init) := by
  have h := toolsWebSearch_error_paths (fun _ => none) 0 "q" "key"
    WebSearchRateLimiter.init (some "5") "busy" (.payload none)
    "network down"
  refine ⟨h.1, ?_, ?_⟩
  · have h500 := (toolsWebSearch_error_paths (fun _ => none) 0 "q" "key"
      WebSearchRateLimiter.init none "oops" (.payload none)
      "network down").2.1 500 (by omega) (by omega)
    exact h500
  · exact h.2.2.1

/-- C7: the `web_search` the worker executes — the inline
`performWebSearch` of `verify.ts`, the function `handleToolCall`
dispatches to — has no rate limiter. On an HTTP 429 it returns the
generic non-2xx failure string, and the result is the same whatever the
`Retry-After` header (or the body) of the 429 response is: the retry
hint is fed to nothing. By contrast, the unwired tools copy called on
the same 429 response leaves its rate limiter in the `on429` state
derived from that very header. A thrown fetch is still caught into the
`Search error` diagnostic, so the executed copy never throws either —
only the claim's rate-limiter conjunct fails. -/
theorem webSearch_429_ignores_retry_hint (dateParse : String → Option Int)
    (now : Nat) (query apiKeyVal detail : String)
    (retryAfter retryAfter' : Option String) (body body' : SearchBody)
    (rl : WebSearchRateLimiter) (msg : String) :
    VerifyTs.performWebSearch query (some apiKeyVal)
        (.response 429 retryAfter detail body) =
      searchFailedMessage 429 detail ∧
    VerifyTs.performWebSearch query (some apiKeyVal)
        (.response 429 retryAfter detail body) =
      VerifyTs.performWebSearch query (some apiKeyVal)
        (.response 429 retryAfter' detail body') ∧
    (performWebSearch dateParse now query (some apiKeyVal) rl
        (.response 429 retryAfter detail body)).2 =
      rl.on429 dateParse now retryAfter ∧
    VerifyTs.performWebSearch query (some apiKeyVal) (.fetchError msg) =
      searchErrorMessage msg := by
  have hcond : ¬ (200 ≤ 429 ∧ 429 ≤ 299) := by omega
  refine ⟨?_, ?_, ?_, rfl⟩
  · simp only [VerifyTs.performWebSearch, if_pos hcond]
  · simp only [VerifyTs.performWebSearch, if_pos hcond]
  · have h : performWebSearch dateParse now query (some apiKeyVal) rl
        (.response 429 retryAfter detail body) =
        (searchFailedMessage 429 detail,
          rl.on429 dateParse now retryAfter) := by
      simp only [performWebSearch, if_pos hcond, if_pos rfl, if_true]
    rw [h]

/-- Case split on what one `fetchPdfBytes` call does to the cache: it
either leaves it alone, or (on a successful PDF download of an uncached
URL) evicts the head when full and appends the new entry. -/
theorem fetchPdfBytes_cache_cases {β : Type} (cache : List (String × β))
    (url : String) (o : PdfFetchOutcome β) :
    (fetchPdfBytes cache url o).2.1 = cache ∨
      ∃ b, (fetchPdfBytes cache url o).2.1 =
        (if cache.length ≥ PDF_CACHE_LIMIT then cache.tail else cache) ++
          [(cleanPdfUrl url, b)] := by
  simp only [fetchPdfBytes]
  split
  · exact Or.inl rfl
  · split
    · exact Or.inl rfl
    · split
      · split
        · exact Or.inl rfl
        · split
          · exact Or.inl rfl
          · exact Or.inl rfl
      · split
        · exact Or.inl rfl
        · exact Or.inr ⟨_, rfl⟩

/-- One `fetchPdfBytes` call keeps the cache within its capacity. -/
theorem fetchPdfBytes_length_le {β : Type} (cache : List (String × β))
    (url : String) (o : PdfFetchOutcome β)
    (h : cache.length ≤ PDF_CACHE_LIMIT) :
    ((fetchPdfBytes cache url o).2.1).length ≤ PDF_CACHE_LIMIT := by
  rcases fetchPdfBytes_cache_cases cache url o with heq | ⟨b, heq⟩
  · rw [heq]
    exact h
  · rw [heq, List.length_append]
    simp only [PDF_CACHE_LIMIT] at h ⊢
    split
    · rename_i hge
      simp only [List.length_tail, List.length_cons, List.length_nil]
      omega
    · rename_i hlt
      simp only [List.length_cons, List.length_nil]
      omega

/-- C8: starting from the empty module-level cache, the PDF byte cache
never exceeds its capacity of 3 after any sequence of fetches; a
successful PDF download for a 4th distinct URL into a full cache evicts
exactly the oldest-inserted entry (the head of the insertion-ordered
list) and appends the new one, leaving the cache at capacity; and a
fetch for a URL already cached returns the cached bytes, performs no
network fetch, and evicts nothing. -/
theorem pdfCache_bounded_fifo {β : Type} (cache : List (String × β))
    (url : String) (status : Nat) (ct : String) (bytes : β)
    (o : PdfFetchOutcome β) (b : β) :
    (∀ ops : List (String × PdfFetchOutcome β),
      (runPdfFetches ops).length ≤ PDF_CACHE_LIMIT) ∧
    (cache.length = PDF_CACHE_LIMIT →
      cache.lookup (cleanPdfUrl url) = none →
      200 ≤ status → status ≤ 299 →
      strIncludes ct "application/pdf" = true →
      fetchPdfBytes cache url (.response status ct bytes) =
          (.bytes bytes, cache.tail ++ [(cleanPdfUrl url, bytes)], true) ∧
        (cache.tail ++ [(cleanPdfUrl url, bytes)]).length =
          PDF_CACHE_LIMIT) ∧
    (cache.lookup (cleanPdfUrl url) = some b →
      fetchPdfBytes cache url o = (.bytes b, cache, false)) := by
  refine ⟨?_, ?_, ?_⟩
  · have hstep : ∀ (ops : List (String × PdfFetchOutcome β))
        (start : List (String × β)), start.length ≤ PDF_CACHE_LIMIT →
        (ops.foldl (fun cache op => (fetchPdfBytes cache op.1 op.2).2.1)
          start).length ≤ PDF_CACHE_LIMIT := by
      intro ops
      induction ops with
      | nil => intro start h; exact h
      | cons op rest ih =>
        intro start h
        exact ih _ (fetchPdfBytes_length_le start op.1 op.2 h)
    intro ops
    exact hstep ops ([] : List (String × β)) (by simp [PDF_CACHE_LIMIT])
  · intro hfull hmiss h200 h299 hct
    have hok : ¬ ¬ (200 ≤ status ∧ status ≤ 299) :=
      fun hcon => hcon ⟨h200, h299⟩
    have hct' : ¬ ¬ strIncludes ct "application/pdf" = true := by
      simp [hct]
    constructor
    · simp only [fetchPdfBytes, hmiss]
      rw [if_neg hok, if_neg (by simp [hct]), if_pos (by omega)]
    · rw [List.length_append, List.length_tail]
      simp only [List.length_cons, List.length_nil, PDF_CACHE_LIMIT] at hfull ⊢
      omega
  · intro hhit
    simp only [fetchPdfBytes, hhit]

/-- C8 witness: a full three-entry cache over `Nat` bytes; downloading a
fourth URL evicts the first-inserted entry, the capacity bound holds for
a concrete five-fetch sequence, and refetching a cached URL touches
nothing. -/
theorem pdfCache_bounded_fifo_witness :
    fetchPdfBytes
        [("https://a.pdf", 1), ("https://b.pdf", 2), ("https://c.pdf", 3)]
        "https://d.pdf" (.response 200 "application/pdf" 4) =
      (.bytes 4,
        [("https://b.pdf", 2), ("https://c.pdf", 3), ("https://d.pdf", 4)],
        true) ∧
    fetchPdfBytes
        [("https://a.pdf", 1), ("https://b.pdf", 2), ("https://c.pdf", 3)]
        "https://a.pdf" (.fetchError "unused") =
      (.bytes 1,
        [("https://a.pdf", 1), ("https://b.pdf", 2), ("https://c.pdf", 3)],
        false) ∧
    (runPdfFetches
        [("https://a.pdf", .response 200 "application/pdf" (1 : Nat)),
         ("https://b.pdf", .response 200 "application/pdf" 2),
         ("https://c.pdf", .response 200 "application/pdf" 3),
         ("https://d.pdf", .response 200 "application/pdf" 4),
         ("https://e.pdf", .response 200 "application/pdf" 5)]).length ≤
      PDF_CACHE_LIMIT := by
  have h4 := pdfCache_bounded_fifo
    [("https://a.pdf", (1 : Nat)), ("https://b.pdf", 2), ("https://c.pdf", 3)]
    "https://d.pdf" 200 "application/pdf" 4
    (.response 200 "application/pdf" 4) 1
  have ha := pdfCache_bounded_fifo
    [("https://a.pdf", (1 : Nat)), ("https://b.pdf", 2), ("https://c.pdf", 3)]
    "https://a.pdf" 200 "application/pdf" 4 (.fetchError "unused") 1
  refine ⟨?_, ?_, ?_⟩
  · have := (h4.2.1 (by decide) (by decide) (by decide) (by decide)
      (by decide)).1
    exact this
  · exact ha.2.2 (by decide)
  · exact h4.1 _

/-- The `broadcast` loop delivers to exactly the subscribers whose
`send` succeeds, and exactly those survive in the session set. -/
theorem broadcastLoop_eq_filter (sendOk : Nat → Bool)
    (sessions : List Nat) :
    broadcastLoop sendOk sessions =
      (sessions.filter sendOk, sessions.filter sendOk) := by
  induction sessions with
  | nil => rfl
  | cons ws rest ih =>
    simp only [broadcastLoop, ih, List.filter_cons]
    by_cases hws : sendOk ws
    · simp [hws]
    · simp [hws]

/-- C9: a `POST /progress` stores the canonical new snapshot and pushes
exactly it to every live subscriber whose send succeeds; a send failure
removes only the failing subscriber from the session set, and every
other live subscriber still receives that same update. -/
theorem progressPost_broadcast (sendOk : Nat → Bool)
    (payload : ProgressUpdate) (nowIso : String) (st : ActorState) :
    (handleProgressPost sendOk payload nowIso st).2.1 =
        kvStoreSet payload nowIso ∧
    (handleProgressPost sendOk payload nowIso st).1.stored =
        some (kvStoreSet payload nowIso) ∧
    (handleProgressPost sendOk payload nowIso st).2.2 =
        st.sessions.filter sendOk ∧
    (handleProgressPost sendOk payload nowIso st).1.sessions =
        st.sessions.filter sendOk ∧
    (∀ ws ∈ st.sessions, sendOk ws = true →
      ws ∈ (handleProgressPost sendOk payload nowIso st).2.2 ∧
        ws ∈ (handleProgressPost sendOk payload nowIso st).1.sessions) ∧
    (∀ ws, sendOk ws = false →
      ws ∉ (handleProgressPost sendOk payload nowIso st).2.2 ∧
        ws ∉ (handleProgressPost sendOk payload nowIso st).1.sessions) := by
  have hb := broadcastLoop_eq_filter sendOk st.sessions
  have hsent : (handleProgressPost sendOk payload nowIso st).2.2 =
      st.sessions.filter sendOk := by
    simp only [handleProgressPost, hb]
  have hsess : (handleProgressPost sendOk payload nowIso st).1.sessions =
      st.sessions.filter sendOk := by
    simp only [handleProgressPost, hb]
  refine ⟨rfl, rfl, hsent, hsess, ?_, ?_⟩
  · intro ws hmem hok
    rw [hsent, hsess]
    exact ⟨List.mem_filter.mpr ⟨hmem, hok⟩, List.mem_filter.mpr ⟨hmem, hok⟩⟩
  · intro ws hfail
    rw [hsent, hsess]
    constructor <;>
      exact fun hmem => by
        have := (List.mem_filter.mp hmem).2
        rw [hfail] at this
        exact Bool.false_ne_true this

/-- C9 witness: broadcasting to sessions `[1, 2, 3]` where only
subscriber 2's send fails: 1 and 3 receive the new snapshot, and only 2
is dropped. -/
theorem progressPost_broadcast_witness :
    (handleProgressPost (fun ws => ws ≠ 2)
        { status := .processing, footnoteCount := 1, verifications := [] }
        "t1" { stored := none, sessions := [1, 2, 3] }).2.2 = [1, 3] ∧
    (handleProgressPost (fun ws => ws ≠ 2)
        { status := .processing, footnoteCount := 1, verifications := [] }
        "t1" { stored := none, sessions := [1, 2, 3] }).1.sessions =
      [1, 3] ∧
    (handleProgressPost (fun ws => ws ≠ 2)
        { status := .processing, footnoteCount := 1, verifications := [] }
        "t1" { stored := none, sessions := [1, 2, 3] }).2.1.updatedAt =
      "t1" := by
  have h := progressPost_broadcast (fun ws => ws ≠ 2)
    { status := .processing, footnoteCount := 1, verifications := [] }
    "t1" { stored := none, sessions := [1, 2, 3] }
  refine ⟨?_, ?_, ?_⟩
  · rw [h.2.2.1]
    rfl
  · rw [h.2.2.2.1]
    rfl
  · rw [h.1]
    rfl

/-- C10: a subscriber attaching before any snapshot was ever stored gets
no attach-time push; `GET /progress` then answers 200 with a null body
rather than an error; and the subscriber receives its first snapshot at
the next `set()`. -/
theorem progressAttach_before_first_snapshot (st : ActorState) (ws : Nat)
    (sendOk : Nat → Bool) (payload : ProgressUpdate) (nowIso : String)
    (hnone : st.stored = none) :
    (handleAttach ws st).2 = [] ∧
    handleProgressGet st = (200, none) ∧
    (sendOk ws = true →
      ws ∈ (handleProgressPost sendOk payload nowIso
        (handleAttach ws st).1).2.2) := by
  refine ⟨?_, ?_, ?_⟩
  · simp [handleAttach, hnone]
  · simp [handleProgressGet, hnone]
  · intro hok
    have hmem : ws ∈ (handleAttach ws st).1.sessions := by
      simp [handleAttach, hnone]
    have hsent : (handleProgressPost sendOk payload nowIso
        (handleAttach ws st).1).2.2 =
        (handleAttach ws st).1.sessions.filter sendOk := by
      simp only [handleProgressPost, broadcastLoop_eq_filter]
    rw [hsent]
    exact List.mem_filter.mpr ⟨hmem, hok⟩

/-- C10 witness: subscriber 7 attaches to a fresh actor (no snapshot
stored): nothing is pushed on attach, a pull answers 200/null, and the
next `set()` reaches the subscriber. -/
theorem progressAttach_before_first_snapshot_witness :
    (handleAttach 7 { stored := none, sessions := [] }).2 = [] ∧
    handleProgressGet { stored := none, sessions := [] } = (200, none) ∧
    7 ∈ (handleProgressPost (fun _ => true)
        { status := .processing, footnoteCount := 0, verifications := [] }
        "t0" (handleAttach 7 { stored := none, sessions := [] }).1).2.2 := by
  have h := progressAttach_before_first_snapshot
    { stored := none, sessions := [] } 7 (fun _ => true)
    { status := .processing, footnoteCount := 0, verifications := [] }
    "t0" rfl
  exact ⟨h.1, h.2.1, h.2.2 rfl⟩

/-- Lookup helper: in a footnote list whose entry at position `i`
carries index `base + i`, `find?` by index `k` finds a footnote with
exactly index `k`, for every `k` within range. -/
theorem find_footnote_by_index (l : List FootnoteRec) (base k : Int)
    (hwf : ∀ i (h : i < l.length), (l.get ⟨i, h⟩).index = base + i)
    (hk1 : base ≤ k) (hk2 : k < base + l.length) :
    ∃ f, l.find? (fun f => f.index == k) = some f ∧ f.index = k := by
  induction l generalizing base with
  | nil =>
    exfalso
    simp only [List.length_nil, Nat.cast_zero, add_zero] at hk2
    omega
  | cons x xs ih =>
    have hx : x.index = base := by
      have h0 := hwf 0 (by simp)
      simpa using h0
    by_cases hk : k = base
    · refine ⟨x, ?_, by rw [hx, hk]⟩
      have hpos : (fun f => f.index == k) x = true := by
        simp [hx, hk]
      simp [List.find?_cons, hpos]
    · have hneg : (fun f => f.index == k) x = false := by
        simp only [beq_eq_false_iff_ne, ne_eq, hx]
        omega
      have hstep : (x :: xs).find? (fun f => f.index == k) =
          xs.find? (fun f => f.index == k) := by
        simp [List.find?_cons, hneg]
      rw [hstep]
      refine ih (base + 1) ?_ (by omega) ?_
      · intro i h
        have := hwf (i + 1) (by simpa using Nat.succ_lt_succ h)
        simp only [List.get_cons_succ] at this
        rw [this]
        push_cast
        ring
      · simp only [List.length_cons, Nat.cast_add, Nat.cast_one] at hk2 ⊢
        omega

/-- Bound of the refactored tools `getEarlierFootnotes` (the module
`verify/tools/earlier-footnotes.ts`, which no module of the worker
imports): a lookup for index `k` (over a context whose footnote list
carries indices `1..N` in order, with `1 ≤ k ≤ N`) succeeds — returning
that footnote's formatted claim and citation text — exactly when
`k ≤ currentIndex + 1`; a forward reference past that bound returns the
descriptive non-fatal `notEarlierMessage` string instead of throwing. -/
theorem toolsEarlierFootnotes_bound (ctx : VerificationContext) (k : Int)
    (hwf : ∀ i (h : i < ctx.allFootnotes.length),
      (ctx.allFootnotes.get ⟨i, h⟩).index = (i : Int) + 1)
    (hk1 : 1 ≤ k) (hk2 : k ≤ (ctx.allFootnotes.length : Int)) :
    (k ≤ ctx.currentIndex + 1 →
      ∃ f, ctx.allFootnotes.find? (fun f => f.index == k) = some f ∧
        f.index = k ∧
        getEarlierFootnotes (some ctx) (some k) = formatFootnoteText f) ∧
    (ctx.currentIndex + 1 < k →
      getEarlierFootnotes (some ctx) (some k) = notEarlierMessage k) := by
  constructor
  · intro hle
    obtain ⟨f, hf, hidx⟩ := find_footnote_by_index ctx.allFootnotes 1 k
      (fun i h => by rw [hwf i h]; ring) hk1 (by omega)
    refine ⟨f, hf, hidx, ?_⟩
    simp only [getEarlierFootnotes]
    rw [if_neg (by omega), hf]
  · intro hgt
    simp only [getEarlierFootnotes]
    rw [if_pos (by omega)]

/-- The tools copy's bound on a two-footnote context positioned at the
first footnote: looking up footnote 1 returns its text verbatim, and
looking up footnote 2 (a forward reference) returns the non-fatal
message. -/
theorem toolsEarlierFootnotes_bound_check :
    getEarlierFootnotes (some sampleContext) (some 1) =
      formatFootnoteText
        { id := "f1", index := 1, claim := "c1", citation := "s1" } ∧
    getEarlierFootnotes (some sampleContext) (some 2) =
      notEarlierMessage 2 := by
  constructor
  · obtain ⟨f, hf, _, hres⟩ :=
      (toolsEarlierFootnotes_bound sampleContext 1 (by decide) (by decide)
        (by decide)).1 (by decide)
    have hcomp : some f =
        some ({ id := "f1", index := 1, claim := "c1", citation := "s1" } : FootnoteRec) :=
      hf.symm.trans rfl
    rw [hres, Option.some.inj hcomp]
  · exact (toolsEarlierFootnotes_bound sampleContext 2 (by decide) (by decide)
      (by decide)).2 (by decide)

/-- A successful lookup's formatted text (which opens with two
asterisks) is never the forward-reference refusal string (which opens
with an F), whatever the footnote and index. -/
theorem formatFootnoteText_ne_notEarlierMessage (f : FootnoteRec)
    (k : Int) : formatFootnoteText f ≠ notEarlierMessage k := by
  intro h
  have h1 : (formatFootnoteText f).data.head? = some '*' := rfl
  have h2 : (notEarlierMessage k).data.head? = some 'F' := rfl
  rw [h, h2] at h1
  exact absurd h1 (by decide)

/-- C4: the `get_earlier_footnotes` the worker executes — the inline
`getEarlierFootnotes` of `verify.ts`, the function `handleToolCall`
dispatches to — has no forward bound on the `specificIndex` path: a
lookup for any index `k` matching a footnote returns that footnote's
full formatted claim and citation text even when
`k > currentIndex + 1`, whereas the unwired tools copy refuses the same
lookup with the `notEarlierMessage` string — and the returned content
is never that refusal string. -/
theorem earlierFootnotes_forward_lookup_succeeds
    (ctx : VerificationContext) (count k : Int) (f : FootnoteRec)
    (hfind : ctx.allFootnotes.find? (fun g => g.index == k) = some f)
    (hforward : ctx.currentIndex + 1 < k) :
    VerifyTs.getEarlierFootnotes (some ctx) count (some k) =
      formatFootnoteText f ∧
    getEarlierFootnotes (some ctx) (some k) = notEarlierMessage k ∧
    formatFootnoteText f ≠ notEarlierMessage k := by
  refine ⟨?_, ?_, formatFootnoteText_ne_notEarlierMessage f k⟩
  · simp only [VerifyTs.getEarlierFootnotes, hfind]
  · simp only [getEarlierFootnotes]
    rw [if_pos (by omega)]

/-- C4 witness: in the two-footnote context positioned at the first
footnote, the executed lookup for footnote 2 — a forward reference,
`2 > 0 + 1` — returns footnote 2's full text, while the unwired
refactored tool refuses it with the non-fatal message. -/
theorem earlierFootnotes_forward_lookup_succeeds_witness :
    VerifyTs.getEarlierFootnotes (some sampleContext) 1 (some 2) =
      formatFootnoteText
        { id := "f2", index := 2, claim := "c2", citation := "s2" } ∧
    getEarlierFootnotes (some sampleContext) (some 2) =
      notEarlierMessage 2 := by
  have h := earlierFootnotes_forward_lookup_succeeds sampleContext 1 2
    { id := "f2", index := 2, claim := "c2", citation := "s2" }
    (by decide) (by decide)
  exact ⟨h.1, h.2.1⟩

/-- Dropping over a prefix all of whose characters satisfy the
predicate continues into the suffix. -/
theorem dropWhile_append_of_all (p : Char → Bool) (a x : List Char)
    (ha : ∀ c ∈ a, p c = true) :
    (a ++ x).dropWhile p = x.dropWhile p := by
  induction a with
  | nil => rfl
  | cons c rest ih =>
    have hc : p c = true := ha c (List.mem_cons_self c rest)
    simp only [List.cons_append, List.dropWhile_cons, hc, if_true]
    exact ih (fun d hd => ha d (List.mem_cons_of_mem c hd))

/-- The greedy brace regex on prose-wrapped JSON: with no opening brace
in the leading prose and no closing brace in the trailing prose, the
match is exactly the embedded object. -/
theorem extractJsonChars_embedded (a j b : List Char)
    (ha : ∀ c ∈ a, c ≠ '{') (hb : ∀ c ∈ b, c ≠ '}')
    (hj1 : j.head? = some '{') (hj2 : j.getLast? = some '}') :
    extractJsonChars (a ++ j ++ b) = some j := by
  obtain ⟨jt, rfl⟩ : ∃ jt, j = '{' :: jt := by
    cases j with
    | nil => simp at hj1
    | cons c t =>
      refine ⟨t, ?_⟩
      have : c = '{' := by simpa using hj1
      rw [this]
  have hstep1 : (a ++ ('{' :: jt) ++ b).dropWhile (fun c => c ≠ '{') =
      ('{' :: jt) ++ b := by
    rw [List.append_assoc,
      dropWhile_append_of_all _ a _ (fun c hc => by simpa using ha c hc)]
    simp [List.dropWhile_cons]
  have hrev : (('{' :: jt) ++ b).reverse =
      b.reverse ++ ('{' :: jt).reverse := List.reverse_append _ _
  have hstep2 : (b.reverse ++ ('{' :: jt).reverse).dropWhile
      (fun c => c ≠ '}') = ('{' :: jt).reverse := by
    rw [dropWhile_append_of_all _ b.reverse _
      (fun c hc => by
        have : c ∈ b := List.mem_reverse.mp hc
        simpa using hb c this)]
    have hhead : (('{' :: jt).reverse).head? = some '}' := by
      rw [List.head?_reverse]
      exact hj2
    cases hrevj : ('{' :: jt).reverse with
    | nil => simp [hrevj] at hhead
    | cons c t =>
      rw [hrevj] at hhead
      have hc : c = '}' := by simpa using hhead
      simp [List.dropWhile_cons, hc]
  simp only [extractJsonChars, hstep1, hrev, hstep2, List.reverse_reverse,
    List.isEmpty_cons]
  rfl

/-- The do-chain of `parseVerificationFromJson` pins the overall verdict
to the validated `overall_verdict || verdict` field. -/
theorem parseVerificationFromJson_verdict (parsed : Json) (fid : String)
    (v : VerificationRecord)
    (hv : parseVerificationFromJson parsed fid = some v) :
    v.verdict =
      toVerdict (jsOr (parsed.getStrTruthy "overall_verdict")
        (parsed.getStr "verdict")) := by
  unfold parseVerificationFromJson at hv
  rcases hs : sourcesField parsed with _ | rs
  · simp only [hs] at hv
    exact Option.noConfusion hv
  · simp only [hs] at hv
    rcases hm : rs.mapM parseSourceEntry with _ | srcs
    · simp only [hm] at hv
      exact Option.noConfusion hv
    · simp only [hm] at hv
      rw [← Option.some.inj hv]

/-- C5 (amended): the parser extracts the embedded JSON object out of a
prose-wrapped model response and parses only it; a response with no
JSON object yields a `source_unavailable` verification with confidence
0; and every verdict — overall and per-source — is validated against
the closed five-value enumeration `validVerdicts` (which does not
include `not_applicable`), any value outside it defaulting to
`source_unavailable`. -/
theorem parseResponse_extraction_validation
    (jsonParse : String → Option Json) (a j b footnoteId : String)
    (parsed : Json) (v : VerificationRecord) (text fid2 s : String)
    (sj : Json) (srcRes : SourceResult) :
    ((∀ c ∈ a.data, c ≠ '{') → (∀ c ∈ b.data, c ≠ '}') →
      j.data.head? = some '{' → j.data.getLast? = some '}' →
      extractJson (a ++ j ++ b) = some j ∧
        (jsTrim (a ++ j ++ b) ≠ "" → jsonParse j = some parsed →
          parseVerificationFromJson parsed footnoteId = some v →
          parseVerificationResponse jsonParse (a ++ j ++ b) footnoteId =
            v)) ∧
    (extractJson text = none →
      (parseVerificationResponse jsonParse text fid2).verdict =
          .source_unavailable ∧
        (parseVerificationResponse jsonParse text fid2).confidence = 0) ∧
    (validVerdicts.contains s = false →
      toVerdict (some s) = .source_unavailable) ∧
    toVerdict none = .source_unavailable ∧
    (toVerdict (some "supports") = .supports ∧
      toVerdict (some "partially_supports") = .partially_supports ∧
      toVerdict (some "does_not_support") = .does_not_support ∧
      toVerdict (some "contradicts") = .contradicts ∧
      toVerdict (some "source_unavailable") = .source_unavailable) ∧
    (parseSourceEntry sj = some srcRes →
      srcRes.verdict = toVerdict (sj.getStr "verdict")) ∧
    (parseVerificationFromJson parsed footnoteId = some v →
      v.verdict =
        toVerdict (jsOr (parsed.getStrTruthy "overall_verdict")
          (parsed.getStr "verdict"))) := by
  refine ⟨?_, ?_, ?_, rfl, ⟨rfl, rfl, rfl, rfl, rfl⟩, ?_,
    parseVerificationFromJson_verdict parsed footnoteId v⟩
  · intro ha hb hj1 hj2
    have hmk : String.mk j.data = j := by
      cases j
      rfl
    have hext : extractJson (a ++ j ++ b) = some j := by
      unfold extractJson
      have hdata : (a ++ j ++ b).data = a.data ++ j.data ++ b.data := by
        simp [String.data_append]
      rw [hdata, extractJsonChars_embedded a.data j.data b.data ha hb hj1
        hj2]
      simp [hmk]
    refine ⟨hext, ?_⟩
    intro htrim hp hv
    unfold parseVerificationResponse
    rw [if_neg htrim]
    simp only [hext, hp, hv]
  · intro hext
    by_cases htrim : jsTrim text = ""
    · unfold parseVerificationResponse
      rw [if_pos htrim]
      exact ⟨rfl, rfl⟩
    · unfold parseVerificationResponse
      rw [if_neg htrim, hext]
      exact ⟨rfl, rfl⟩
  · intro hs
    unfold toVerdict
    split
    · rename_i heq
      exfalso
      rw [Option.some.inj heq] at hs
      simp [validVerdicts] at hs
    · rename_i heq
      exfalso
      rw [Option.some.inj heq] at hs
      simp [validVerdicts] at hs
    · rename_i heq
      exfalso
      rw [Option.some.inj heq] at hs
      simp [validVerdicts] at hs
    · rename_i heq
      exfalso
      rw [Option.some.inj heq] at hs
      simp [validVerdicts] at hs
    · rename_i heq
      exfalso
      rw [Option.some.inj heq] at hs
      simp [validVerdicts] at hs
    · rfl
  · intro h
    cases sj with
    | null => simp [parseSourceEntry] at h
    | bool b =>
      simp only [parseSourceEntry] at h
      rw [← Option.some.inj h]
    | num q =>
      simp only [parseSourceEntry] at h
      rw [← Option.some.inj h]
    | str s2 =>
      simp only [parseSourceEntry] at h
      rw [← Option.some.inj h]
    | arr xs =>
      simp only [parseSourceEntry] at h
      rw [← Option.some.inj h]
    | obj fields =>
      simp only [parseSourceEntry] at h
      rw [← Option.some.inj h]

set_option maxRecDepth 8000 in
/-- C5 counterexample: the claim's closed verdict enumeration includes
`not_applicable`, but the code's `validVerdicts` list does not: a
response whose overall and per-source verdicts are the string
`not_applicable` is coerced to `source_unavailable` instead of being
kept, so `not_applicable` behaves as an out-of-enumeration value. -/
theorem parseResponse_not_applicable_defaults :
    validVerdicts.contains "not_applicable" = false ∧
    (parseVerificationResponse notApplicableParse notApplicableText
        "fn-1").verdict = .source_unavailable ∧
    ((parseVerificationResponse notApplicableParse notApplicableText
        "fn-1").sources.getD []).map SourceResult.verdict =
      [.source_unavailable] := by
  refine ⟨by decide, by decide, by decide⟩

set_option maxRecDepth 8000 in
/-- C5 witness: the amended parsing laws evaluated on a concrete
prose-wrapped response: the embedded JSON is extracted out of the prose,
the parsed verification comes from that object alone, and an
out-of-enumeration verdict string defaults to `source_unavailable`. -/
theorem parseResponse_extraction_validation_witness :
    extractJson (proseBefore ++ jsonPayload ++ proseAfter) =
      some jsonPayload ∧
    parseVerificationResponse jsonPayloadParse
        (proseBefore ++ jsonPayload ++ proseAfter) "fn-9" =
      { footnoteId := "fn-9", verdict := .supports, confidence := 1,
        explanation := "ok", sourceAccessed := false } ∧
    toVerdict (some "bogus") = .source_unavailable := by
  have h := parseResponse_extraction_validation jsonPayloadParse
    proseBefore jsonPayload proseAfter "fn-9" jsonPayloadValue
    { footnoteId := "fn-9", verdict := .supports, confidence := 1,
      explanation := "ok", sourceAccessed := false }
    "" "" "bogus" Json.null
    { accessed := false, verdict := .source_unavailable,
      explanation := "" }
  have hA := h.1 (by decide) (by decide) (by decide) (by decide)
  refine ⟨hA.1, hA.2 (by decide) (by rfl) (by rfl), ?_⟩
  exact h.2.2.1 (by decide)

/-- The launch loop never touches the resolved slot. -/
theorem runNextAux_resolvedWith (N : Nat) :
    ∀ (fuel : Nat) (s : SchedState),
      (runNextAux N fuel s).resolvedWith = s.resolvedWith
  | 0, _ => rfl
  | fuel + 1, s => by
    simp only [runNextAux]
    split
    · exact runNextAux_resolvedWith N fuel _
    · rfl

/-- The launch loop never touches the results array. -/
theorem runNextAux_results (N : Nat) :
    ∀ (fuel : Nat) (s : SchedState),
      (runNextAux N fuel s).results = s.results
  | 0, _ => rfl
  | fuel + 1, s => by
    simp only [runNextAux]
    split
    · exact runNextAux_results N fuel _
    · rfl

/-- The launch loop only adds in-flight tasks. -/
theorem runNextAux_pending_mono (N : Nat) :
    ∀ (fuel : Nat) (s : SchedState) (i : Nat),
      i ∈ s.pending → i ∈ (runNextAux N fuel s).pending
  | 0, _, _, h => h
  | fuel + 1, s, i, h => by
    simp only [runNextAux]
    split
    · exact runNextAux_pending_mono N fuel _ i (List.mem_cons_of_mem _ h)
    · exact h

/-- The launch loop keeps a nonempty in-flight set nonempty. -/
theorem runNextAux_pending_ne (N fuel : Nat) (s : SchedState)
    (h : s.pending ≠ []) : (runNextAux N fuel s).pending ≠ [] := by
  obtain ⟨i, hi⟩ := List.exists_mem_of_ne_nil _ h
  exact List.ne_nil_of_mem (runNextAux_pending_mono N fuel s i hi)

/-- A launch loop that can run at least one iteration leaves a task in
flight. -/
theorem runNextAux_pending_nonempty (N fuel : Nat) (s : SchedState)
    (hact : s.active < concurrencyLimit) (hnext : s.nextIndex < N) :
    (runNextAux N (fuel + 1) s).pending ≠ [] := by
  simp only [runNextAux]
  rw [if_pos ⟨hact, hnext⟩]
  exact List.ne_nil_of_mem
    (runNextAux_pending_mono N fuel _ s.nextIndex
      (List.mem_cons_self _ _))

/-- Launching tasks does not change the termination measure: each
iteration moves one footnote from unstarted to in flight. -/
theorem runNextAux_remaining (N : Nat) :
    ∀ (fuel : Nat) (s : SchedState),
      schedRemaining N (runNextAux N fuel s) = schedRemaining N s
  | 0, _ => rfl
  | fuel + 1, s => by
    simp only [runNextAux]
    split
    · rename_i hcond
      rw [runNextAux_remaining N fuel]
      unfold schedRemaining
      simp only [List.length_cons]
      omega
    · rfl

/-- The launch loop preserves the structural scheduler invariant. -/
theorem runNextAux_inv (N : Nat) (outcome : Nat → VerificationRecord) :
    ∀ (fuel : Nat) (s : SchedState), SchedInv N outcome s →
      SchedInv N outcome (runNextAux N fuel s)
  | 0, _, h => h
  | fuel + 1, s, h => by
    simp only [runNextAux]
    split
    · rename_i hcond
      have hnextlt : s.nextIndex < N := hcond.2
      refine runNextAux_inv N outcome fuel _ ?_
      refine ⟨h.hlen, ?_, ?_, ?_, ?_, ?_, ?_⟩
      · show s.nextIndex + 1 ≤ N
        omega
      · show s.active + 1 = (s.nextIndex :: s.pending).length
        simp only [List.length_cons, h.hact]
      · show (s.nextIndex :: s.pending).Nodup
        exact List.nodup_cons.mpr
          ⟨fun hmem => lt_irrefl _ (h.hmem _ hmem), h.hnodup⟩
      · intro i hi
        show i < s.nextIndex + 1
        rcases List.mem_cons.mp hi with rfl | hi
        · omega
        · have := h.hmem i hi
          omega
      · intro i hilt hnotmem
        have hilt' : i < s.nextIndex + 1 := hilt
        have hne : i ≠ s.nextIndex :=
          fun he => hnotmem (he ▸ List.mem_cons_self _ _)
        have hnm : i ∉ s.pending :=
          fun hm => hnotmem (List.mem_cons_of_mem _ hm)
        exact h.hdone i (by omega) hnm
      · intro i hiN hcase
        refine h.htodo i hiN ?_
        rcases hcase with hle | hmem
        · have hle' : s.nextIndex + 1 ≤ i := hle
          exact Or.inl (by omega)
        · rcases List.mem_cons.mp hmem with rfl | hmem
          · exact Or.inl (le_refl _)
          · exact Or.inr hmem
    · exact h

/-- Setting an index inside bounds is visible at that index. -/
theorem get?_set_self {α : Type} (l : List α) (i : Nat) (v : α)
    (h : i < l.length) : (l.set i v).get? i = some v := by
  simp [List.get?_eq_getElem?, List.getElem?_set_self',
    List.getElem?_eq_getElem h]

/-- Setting an index leaves the other slots alone. -/
theorem get?_set_ne {α : Type} (l : List α) (i j : Nat) (v : α)
    (h : i ≠ j) : (l.set i v).get? j = l.get? j := by
  simp [List.get?_eq_getElem?, List.getElem?_set_ne h]

/-- The structural invariant holds after the synchronous setup of
`verifyAllFootnotes` (pre-sized all-`undefined` array, initial
`runNext`). -/
theorem initialSchedState_inv (N : Nat)
    (outcome : Nat → VerificationRecord) :
    SchedInv N outcome (initialSchedState N) := by
  refine runNextAux_inv N outcome _ _ ?_
  refine ⟨?_, ?_, rfl, List.nodup_nil, ?_, ?_, ?_⟩
  · show (List.replicate N (none : Option VerificationRecord)).length = N
    exact List.length_replicate _ _
  · show 0 ≤ N
    omega
  · intro i hi
    exact absurd hi (List.not_mem_nil i)
  · intro i hi _
    exact absurd hi (Nat.not_lt_zero i)
  · intro i hiN _
    show (List.replicate N (none : Option VerificationRecord)).get? i =
      some none
    rw [List.get?_eq_getElem?]
    simp [List.getElem?_replicate, hiN]

/-- The initial state is unresolved. -/
theorem initialSchedState_resolvedWith (N : Nat) :
    (initialSchedState N).resolvedWith = none := by
  unfold initialSchedState runNext
  rw [runNextAux_resolvedWith]

/-- For a nonempty batch, the initial `runNext` launches at least one
task. -/
theorem initialSchedState_pending_ne (N : Nat) (hN : 0 < N) :
    (initialSchedState N).pending ≠ [] := by
  obtain ⟨m, rfl⟩ : ∃ m, N = m + 1 := ⟨N - 1, by omega⟩
  unfold initialSchedState runNext
  simp only [Nat.sub_zero]
  refine runNextAux_pending_nonempty (m + 1) m _ ?_ ?_
  · show (0 : Nat) < concurrencyLimit
    decide
  · show (0 : Nat) < m + 1
    omega

/-- Unfolding of one valid completion event (unresolved state, task in
flight): write the result, then either resolve or refill the pool. -/
theorem completeTask_spec (N : Nat) (outcome : Nat → VerificationRecord)
    (s : SchedState) (i : Nat) (hres : s.resolvedWith = none)
    (hmem : i ∈ s.pending) :
    completeTask N outcome s i =
      (if N ≤ s.nextIndex ∧ s.active - 1 = 0 then
        ({ nextIndex := s.nextIndex,
           active := s.active - 1,
           results := s.results.set i (some (outcome i)),
           pending := s.pending.erase i,
           resolvedWith :=
             some ((s.results.set i (some (outcome i))).filterMap id) } :
          SchedState)
      else
        runNext N
          { nextIndex := s.nextIndex,
            active := s.active - 1,
            results := s.results.set i (some (outcome i)),
            pending := s.pending.erase i,
            resolvedWith := s.resolvedWith }) := by
  unfold completeTask
  rw [hres]
  simp only [Option.isSome_none, Bool.false_eq_true, if_false, if_pos hmem]

/-- A completion event for a task that is not in flight changes
nothing. -/
theorem completeTask_skip (N : Nat) (outcome : Nat → VerificationRecord)
    (s : SchedState) (i : Nat)
    (h : s.resolvedWith.isSome = true ∨ i ∉ s.pending) :
    completeTask N outcome s i = s := by
  unfold completeTask
  rcases h with h | h
  · rw [if_pos h]
  · by_cases hres : s.resolvedWith.isSome = true
    · rw [if_pos hres]
    · rw [if_neg hres, if_neg h]

/-- One completion event preserves the full scheduler invariant. -/
theorem completeTask_fullInv (N : Nat)
    (outcome : Nat → VerificationRecord) (s : SchedState) (i : Nat)
    (h : SchedFullInv N outcome s) :
    SchedFullInv N outcome (completeTask N outcome s i) := by
  by_cases hres : s.resolvedWith.isSome = true
  · rw [completeTask_skip N outcome s i (Or.inl hres)]
    exact h
  · have hresn : s.resolvedWith = none := by
      rcases hv : s.resolvedWith with _ | v
      · rfl
      · rw [hv] at hres
        simp at hres
    by_cases hmem : i ∈ s.pending
    · have hiNext : i < s.nextIndex := h.toSchedInv.hmem i hmem
      have hiN : i < N := lt_of_lt_of_le hiNext h.toSchedInv.hnext
      have hilen : i < s.results.length := by
        rw [h.toSchedInv.hlen]
        exact hiN
      rw [completeTask_spec N outcome s i hresn hmem]
      by_cases hfire : N ≤ s.nextIndex ∧ s.active - 1 = 0
      · rw [if_pos hfire]
        have hnN : s.nextIndex = N := le_antisymm h.toSchedInv.hnext hfire.1
        have hlenpos : 0 < s.pending.length :=
          List.length_pos.mpr (List.ne_nil_of_mem hmem)
        have hplen1 : s.pending.length = 1 := by
          have h1 := h.toSchedInv.hact
          omega
        obtain ⟨a, ha⟩ := List.length_eq_one.mp hplen1
        have hpi : s.pending = [i] := by
          have hia : i ∈ [a] := ha ▸ hmem
          have : i = a := by simpa using hia
          rw [ha, ← this]
        have herase : s.pending.erase i = [] := by
          rw [hpi]
          simp
        have hall : ∀ j, j < N →
            (s.results.set i (some (outcome i))).get? j =
              some (some (outcome j)) := by
          intro j hj
          by_cases hji : j = i
          · subst hji
            exact get?_set_self _ _ _ hilen
          · rw [get?_set_ne _ _ _ _ (fun he => hji he.symm)]
            refine h.toSchedInv.hdone j (by omega) ?_
            rw [hpi]
            simp [hji]
        refine ⟨⟨?_, h.toSchedInv.hnext, ?_, ?_, ?_, ?_, ?_⟩, ?_, ?_⟩
        · show (s.results.set i (some (outcome i))).length = N
          rw [List.length_set]
          exact h.toSchedInv.hlen
        · show s.active - 1 = (s.pending.erase i).length
          rw [herase]
          simpa using hfire.2
        · show (s.pending.erase i).Nodup
          rw [herase]
          exact List.nodup_nil
        · intro j hj
          rw [herase] at hj
          exact absurd hj (List.not_mem_nil j)
        · intro j hjlt _
          have hjlt' : j < s.nextIndex := hjlt
          exact hall j (by omega)
        · intro j hjN hcase
          exfalso
          rcases hcase with hle | hmemj
          · have hle' : s.nextIndex ≤ j := hle
            omega
          · rw [herase] at hmemj
            exact List.not_mem_nil j hmemj
        · intro habs
          exact absurd habs (by simp)
        · intro out hout
          rw [← Option.some.inj hout]
          have hre : s.results.set i (some (outcome i)) =
              (List.range N).map (fun j => some (outcome j)) := by
            apply List.ext_get?
            intro n
            by_cases hn : n < N
            · rw [hall n hn, List.get?_eq_getElem?]
              simp [List.getElem?_map, List.getElem?_range hn]
            · rw [List.get?_eq_getElem?, List.get?_eq_getElem?]
              rw [List.getElem?_eq_none, List.getElem?_eq_none]
              · simp only [List.length_map, List.length_range]
                omega
              · rw [List.length_set, h.toSchedInv.hlen]
                omega
          rw [hre, List.filterMap_map]
          rw [show (id ∘ fun j => some (outcome j)) =
            (fun j => some (outcome j)) from rfl]
          rw [show (fun j => some (outcome j)) = some ∘ outcome from rfl,
            List.filterMap_eq_map]
          rfl
      · rw [if_neg hfire]
        have hmidInv : SchedInv N outcome
            { nextIndex := s.nextIndex,
              active := s.active - 1,
              results := s.results.set i (some (outcome i)),
              pending := s.pending.erase i,
              resolvedWith := s.resolvedWith } := by
          refine ⟨?_, h.toSchedInv.hnext, ?_, ?_, ?_, ?_, ?_⟩
          · show (s.results.set i (some (outcome i))).length = N
            rw [List.length_set]
            exact h.toSchedInv.hlen
          · show s.active - 1 = (s.pending.erase i).length
            rw [List.length_erase_of_mem hmem, h.toSchedInv.hact]
          · exact h.toSchedInv.hnodup.erase i
          · intro j hj
            exact h.toSchedInv.hmem j (List.mem_of_mem_erase hj)
          · intro j hjlt hjnm
            by_cases hji : j = i
            · subst hji
              exact get?_set_self _ _ _ hilen
            · have hjp : j ∉ s.pending :=
                fun hjp => hjnm ((List.mem_erase_of_ne hji).mpr hjp)
              rw [get?_set_ne _ _ _ _ (fun he => hji he.symm)]
              exact h.toSchedInv.hdone j hjlt hjp
          · intro j hjN hcase
            rcases hcase with hle | hmemj
            · have hle' : s.nextIndex ≤ j := hle
              have hji : i ≠ j := by omega
              rw [get?_set_ne _ _ _ _ hji]
              exact h.toSchedInv.htodo j hjN (Or.inl hle')
            · have hjp : j ∈ s.pending := List.mem_of_mem_erase hmemj
              have hji : i ≠ j := by
                intro he
                subst he
                exact h.toSchedInv.hnodup.not_mem_erase hmemj
              rw [get?_set_ne _ _ _ _ hji]
              exact h.toSchedInv.htodo j hjN (Or.inr hjp)
        refine ⟨?_, ?_, ?_⟩
        · exact runNextAux_inv N outcome _ _ hmidInv
        · intro _ hN
          by_cases hact0 : s.active - 1 = 0
          · have hnlt : s.nextIndex < N := by
              by_contra hge
              exact hfire ⟨by omega, hact0⟩
            show (runNextAux N (N - s.nextIndex) _).pending ≠ []
            obtain ⟨m, hm⟩ : ∃ m, N - s.nextIndex = m + 1 :=
              ⟨N - s.nextIndex - 1, by omega⟩
            rw [hm]
            refine runNextAux_pending_nonempty N m _ ?_ hnlt
            show s.active - 1 < concurrencyLimit
            rw [hact0]
            decide
          · refine runNextAux_pending_ne N _ _ ?_
            show s.pending.erase i ≠ []
            rw [← List.length_pos, List.length_erase_of_mem hmem]
            have h1 := h.toSchedInv.hact
            omega
        · intro out hout
          rw [show (runNext N
              { nextIndex := s.nextIndex,
                active := s.active - 1,
                results := s.results.set i (some (outcome i)),
                pending := s.pending.erase i,
                resolvedWith := s.resolvedWith } : SchedState).resolvedWith =
            s.resolvedWith from runNextAux_resolvedWith N _ _] at hout
          rw [hresn] at hout
          exact absurd hout (by simp)
    · rw [completeTask_skip N outcome s i (Or.inr hmem)]
      exact h

/-- The full invariant holds after any sequence of completion events. -/
theorem runSched_fullInv (N : Nat) (outcome : Nat → VerificationRecord)
    (events : List Nat) :
    SchedFullInv N outcome (runSched N outcome events) := by
  have hstep : ∀ (evs : List Nat) (s : SchedState),
      SchedFullInv N outcome s →
      SchedFullInv N outcome (evs.foldl (completeTask N outcome) s) := by
    intro evs
    induction evs with
    | nil => intro s h; exact h
    | cons e rest ih =>
      intro s h
      exact ih _ (completeTask_fullInv N outcome s e h)
  refine hstep events _ ⟨initialSchedState_inv N outcome, ?_, ?_⟩
  · intro _ hN
    exact initialSchedState_pending_ne N hN
  · intro out hout
    rw [initialSchedState_resolvedWith] at hout
    exact absurd hout (by simp)

/-- A valid completion event lowers the termination measure by one. -/
theorem completeTask_remaining (N : Nat)
    (outcome : Nat → VerificationRecord) (s : SchedState) (i : Nat)
    (hinv : SchedInv N outcome s) (hres : s.resolvedWith = none)
    (hmem : i ∈ s.pending) :
    schedRemaining N (completeTask N outcome s i) =
      schedRemaining N s - 1 := by
  have hlenpos : 0 < s.pending.length :=
    List.length_pos.mpr (List.ne_nil_of_mem hmem)
  rw [completeTask_spec N outcome s i hres hmem]
  split
  · rename_i hfire
    have hnN : s.nextIndex = N := le_antisymm hinv.hnext hfire.1
    unfold schedRemaining
    simp only [List.length_erase_of_mem hmem]
    omega
  · rw [show (runNext N
        { nextIndex := s.nextIndex,
          active := s.active - 1,
          results := s.results.set i (some (outcome i)),
          pending := s.pending.erase i,
          resolvedWith := s.resolvedWith } : SchedState) =
      runNextAux N (N - s.nextIndex)
        { nextIndex := s.nextIndex,
          active := s.active - 1,
          results := s.results.set i (some (outcome i)),
          pending := s.pending.erase i,
          resolvedWith := s.resolvedWith } from rfl,
      runNextAux_remaining]
    unfold schedRemaining
    simp only [List.length_erase_of_mem hmem]
    omega

/-- Progress: from any invariant-respecting unresolved state of a
nonempty batch, some sequence of completion events drives the scheduler
to resolution with the canonical document-ordered results. -/
theorem sched_progress (N : Nat) (outcome : Nat → VerificationRecord) :
    ∀ (k : Nat) (s : SchedState), SchedFullInv N outcome s →
      s.resolvedWith = none → 0 < N → schedRemaining N s ≤ k →
      ∃ events : List Nat,
        (events.foldl (completeTask N outcome) s).resolvedWith =
          some (canonicalResults N outcome) := by
  intro k
  induction k with
  | zero =>
    intro s hinv hres hN hrem
    exfalso
    have hpne := hinv.hlive hres hN
    have := List.length_pos.mpr hpne
    unfold schedRemaining at hrem
    omega
  | succ k ih =>
    intro s hinv hres hN hrem
    have hpne := hinv.hlive hres hN
    obtain ⟨i, hmem⟩ := List.exists_mem_of_ne_nil _ hpne
    have hinv' := completeTask_fullInv N outcome s i hinv
    rcases hres' : (completeTask N outcome s i).resolvedWith with _ | out
    · have hrem' : schedRemaining N (completeTask N outcome s i) ≤ k := by
        rw [completeTask_remaining N outcome s i hinv.toSchedInv hres hmem]
        have hpos : 0 < schedRemaining N s := by
          unfold schedRemaining
          have := List.length_pos.mpr hpne
          omega
        omega
      obtain ⟨events, hev⟩ := ih (completeTask N outcome s i) hinv' hres'
        hN hrem'
      exact ⟨i :: events, by rw [List.foldl_cons]; exact hev⟩
    · refine ⟨[i], ?_⟩
      rw [List.foldl_cons, List.foldl_nil, hres',
        hinv'.hok out hres']

/-- Stable insertion is a permutation of consing. -/
theorem insertByKey_perm (x : FootnoteRec) (l : List FootnoteRec) :
    List.Perm (insertByKey x l) (x :: l) := by
  induction l with
  | nil => exact List.Perm.refl _
  | cons y ys ih =>
    simp only [insertByKey]
    split
    · exact (List.Perm.cons y ih).trans (List.Perm.swap x y ys)
    · exact List.Perm.refl _

/-- Sorting permutes the footnote list. -/
theorem sortFootnotes_perm (l : List FootnoteRec) :
    List.Perm (sortFootnotes l) l := by
  induction l with
  | nil => exact List.Perm.refl _
  | cons x xs ih =>
    exact (insertByKey_perm x (sortFootnotes xs)).trans (List.Perm.cons x ih)

/-- Stable insertion preserves sortedness by the document-order key. -/
theorem insertByKey_sorted (x : FootnoteRec) (l : List FootnoteRec)
    (h : l.Pairwise (fun a b => sortKey a ≤ sortKey b)) :
    (insertByKey x l).Pairwise (fun a b => sortKey a ≤ sortKey b) := by
  induction l with
  | nil => simp [insertByKey]
  | cons y ys ih =>
    rcases List.pairwise_cons.mp h with ⟨hy, hys⟩
    simp only [insertByKey]
    split
    · rename_i hle
      refine List.pairwise_cons.mpr ⟨?_, ih hys⟩
      intro z hz
      rcases List.mem_cons.mp ((insertByKey_perm x ys).mem_iff.mp hz) with
        rfl | hzys
      · exact hle
      · exact hy z hzys
    · rename_i hnle
      have hxy : sortKey x ≤ sortKey y := le_of_not_le hnle
      refine List.pairwise_cons.mpr ⟨?_, h⟩
      intro z hz
      rcases List.mem_cons.mp hz with rfl | hzys
      · exact hxy
      · exact le_trans hxy (hy z hzys)

/-- Sorting yields a list sorted by the document-order key. -/
theorem sortFootnotes_sorted (l : List FootnoteRec) :
    (sortFootnotes l).Pairwise (fun a b => sortKey a ≤ sortKey b) := by
  induction l with
  | nil => exact List.Pairwise.nil
  | cons x xs ih => exact insertByKey_sorted x (sortFootnotes xs) ih

/-- Every string contains the empty pattern. -/
theorem listContainsSub_nil_pat (hay : List Char) :
    listContainsSub hay [] = true := by
  cases hay <;> rfl

/-- A substring of a string is a substring of any right-extension. -/
theorem listContainsSub_append_left (a x pat : List Char)
    (h : listContainsSub a pat = true) :
    listContainsSub (a ++ x) pat = true := by
  induction a with
  | nil =>
    cases pat with
    | nil => exact listContainsSub_nil_pat x
    | cons c t => simp [listContainsSub] at h
  | cons c t ih =>
    simp only [List.cons_append, listContainsSub, Bool.or_eq_true] at h ⊢
    rcases h with h | h
    · left
      have hpre : pat <+: (c :: t) := List.isPrefixOf_iff_prefix.mp h
      exact List.isPrefixOf_iff_prefix.mpr
        (hpre.trans (List.prefix_append _ _))
    · right
      exact ih h

/-- The `withTimeout` rejection message around `verifyFootnote` passes
the `includes("timed out")` test of the orchestrator's catch, for every
timeout value. -/
theorem timeoutMessage_includes (t : Nat) :
    strIncludes (verificationTimeoutMessage t) "timed out" = true := by
  unfold strIncludes verificationTimeoutMessage
  rw [String.data_append]
  exact listContainsSub_append_left _ _ _ (by decide)

/-- Length of the canonical document-ordered result list. -/
theorem canonicalResults_length (N : Nat)
    (outcome : Nat → VerificationRecord) :
    (canonicalResults N outcome).length = N := by
  simp [canonicalResults]

/-- The canonical result list holds, at each position, exactly that
position's outcome. -/
theorem canonicalResults_get? (N : Nat)
    (outcome : Nat → VerificationRecord) (j : Nat) (hj : j < N) :
    (canonicalResults N outcome).get? j = some (outcome j) := by
  unfold canonicalResults
  rw [List.get?_eq_getElem?]
  simp [List.getElem?_map, List.getElem?_range hj]

/-- Reading a list through `range`/`getD` is just mapping over it. -/
theorem map_range_getD (l : List FootnoteRec)
    (g : FootnoteRec → String) :
    (List.range l.length).map (fun i => g (l.getD i dummyFootnote)) =
      l.map g := by
  apply List.ext_get?
  intro n
  by_cases hn : n < l.length
  · rw [List.get?_eq_getElem?, List.get?_eq_getElem?]
    simp [List.getElem?_map, List.getElem?_range hn,
      List.getD_eq_getElem?_getD, List.getElem?_eq_getElem hn]
  · have hlen : l.length ≤ n := Nat.le_of_not_lt hn
    rw [List.get?_eq_getElem?, List.get?_eq_getElem?,
      List.getElem?_eq_none, List.getElem?_eq_none]
    · simpa using hlen
    · simpa using hlen

/-- C3: for a document with zero footnotes, `verifyAllFootnotes` never
launches a claim run (`nextIndex` stays 0, nothing is in flight), and no
sequence of events can ever resolve its promise: the initial `runNext`
exits at once, `resolve` is only ever called from a task's `finally`,
and there are no tasks. The whole call therefore never returns, the
awaited `writeResults("complete", ...)` in `processDocument` is never
reached, and the document never reaches status `complete` — contradicting
the specified empty-document scenario. -/
theorem zeroFootnotes_orchestrator_stuck
    (primary fallback : Nat → RunResult) (events : List Nat) :
    (verifyAllFootnotesModel [] primary fallback events).resolvedWith =
        none ∧
      (initialSchedState 0).nextIndex = 0 ∧
      (initialSchedState 0).pending = [] := by
  refine ⟨?_, rfl, rfl⟩
  show (runSched 0 (footnoteOutcome [] primary fallback)
    events).resolvedWith = none
  unfold runSched
  have hstuck : ∀ evs : List Nat,
      evs.foldl (completeTask 0 (footnoteOutcome [] primary fallback))
        (initialSchedState 0) = initialSchedState 0 := by
    intro evs
    induction evs with
    | nil => rfl
    | cons e rest ih =>
      rw [List.foldl_cons,
        completeTask_skip 0 _ (initialSchedState 0) e
          (Or.inr (by
            rw [show (initialSchedState 0).pending = [] from rfl]
            exact List.not_mem_nil e))]
      exact ih
  rw [hstuck]
  rfl

/-- C1 counterexample: on the empty footnote list, `verifyAllFootnotes`
does not return an empty verification array — its promise can never
settle, here evaluated across five completion events. -/
theorem verifyAll_empty_never_returns :
    (verifyAllFootnotesModel []
        (fun _ => RunResult.err "primary failed")
        (fun _ => RunResult.err "fallback failed")
        [0, 1, 2, 3, 4]).resolvedWith = none := by
  rfl

/-- C1 (amended): for every nonempty input footnote list, every run of
`verifyAllFootnotes` that resolves — whatever the completion order of
the claim runs — resolves with the same array: exactly one
`Verification` per footnote, in document order (`order`, falling back
to `index`), carrying the footnotes' own ids position by position; and
for every nonempty list a resolving completion order exists. (For the
empty list the promise never settles.) -/
theorem verifyAll_ordered_complete (footnotes : List FootnoteRec)
    (primary fallback : Nat → RunResult)
    (hprimary : ∀ j v, primary j = RunResult.ok v →
      v.footnoteId = ((sortFootnotes footnotes).getD j dummyFootnote).id)
    (hfallback : ∀ j v, fallback j = RunResult.ok v →
      v.footnoteId = ((sortFootnotes footnotes).getD j dummyFootnote).id) :
    (∀ (events : List Nat) (out : List VerificationRecord),
      (verifyAllFootnotesModel footnotes primary fallback
          events).resolvedWith = some out →
      out = canonicalResults (sortFootnotes footnotes).length
        (footnoteOutcome footnotes primary fallback)) ∧
    (canonicalResults (sortFootnotes footnotes).length
        (footnoteOutcome footnotes primary fallback)).length =
      footnotes.length ∧
    (canonicalResults (sortFootnotes footnotes).length
        (footnoteOutcome footnotes primary fallback)).map
        (fun v => v.footnoteId) =
      (sortFootnotes footnotes).map (fun f => f.id) ∧
    (sortFootnotes footnotes).Pairwise
      (fun a b => sortKey a ≤ sortKey b) ∧
    List.Perm (sortFootnotes footnotes) footnotes ∧
    (0 < footnotes.length → ∃ events : List Nat,
      (verifyAllFootnotesModel footnotes primary fallback
          events).resolvedWith =
        some (canonicalResults (sortFootnotes footnotes).length
          (footnoteOutcome footnotes primary fallback))) := by
  have hperm := sortFootnotes_perm footnotes
  refine ⟨?_, ?_, ?_, sortFootnotes_sorted footnotes, hperm, ?_⟩
  · intro events out hres
    exact (runSched_fullInv _ _ events).hok out hres
  · rw [canonicalResults_length]
    exact hperm.length_eq
  · unfold canonicalResults
    rw [List.map_map]
    have hcomp : ((fun v => v.footnoteId) ∘
        (footnoteOutcome footnotes primary fallback)) =
        fun i => ((sortFootnotes footnotes).getD i dummyFootnote).id := by
      funext i
      show (footnoteOutcome footnotes primary fallback i).footnoteId = _
      unfold footnoteOutcome taskResult
      rcases hp : primary i with v | msg
      · exact hprimary i v hp
      · dsimp only
        by_cases hinc : strIncludes msg "timed out" = true
        · rw [if_pos hinc]
          rcases hf : fallback i with v2 | m2
          · exact hfallback i v2 hf
          · rfl
        · rw [if_neg hinc]
          rfl
    rw [hcomp, map_range_getD]
  · intro hlen
    have hN : 0 < (sortFootnotes footnotes).length := by
      rw [hperm.length_eq]
      exact hlen
    obtain ⟨events, hev⟩ := sched_progress
      (sortFootnotes footnotes).length
      (footnoteOutcome footnotes primary fallback)
      (schedRemaining (sortFootnotes footnotes).length
        (initialSchedState (sortFootnotes footnotes).length))
      (initialSchedState (sortFootnotes footnotes).length)
      ⟨initialSchedState_inv _ _,
        fun _ h => initialSchedState_pending_ne _ h,
        fun out hout => by
          rw [initialSchedState_resolvedWith] at hout
          exact absurd hout (by simp)⟩
      (initialSchedState_resolvedWith _) hN (le_refl _)
    exact ⟨events, hev⟩

/-- C1 witness: two footnotes whose `order` keys reverse their input
order, run with failing primaries: the canonical output lists the
footnote ids in document order `["b", "a"]` and has length 2. -/
theorem verifyAll_ordered_complete_witness :
    (canonicalResults (sortFootnotes
        [{ id := "a", index := 1, order := some 2, claim := "cA", citation := "sA" },
         { id := "b", index := 2, order := some 1, claim := "cB", citation := "sB" }]).length
      (footnoteOutcome
        [{ id := "a", index := 1, order := some 2, claim := "cA", citation := "sA" },
         { id := "b", index := 2, order := some 1, claim := "cB", citation := "sB" }]
        (fun _ => RunResult.err "primary boom")
        (fun _ => RunResult.err "fallback boom"))).map
      (fun v => v.footnoteId) = ["b", "a"] ∧
    (canonicalResults (sortFootnotes
        [{ id := "a", index := 1, order := some 2, claim := "cA", citation := "sA" },
         { id := "b", index := 2, order := some 1, claim := "cB", citation := "sB" }]).length
      (footnoteOutcome
        [{ id := "a", index := 1, order := some 2, claim := "cA", citation := "sA" },
         { id := "b", index := 2, order := some 1, claim := "cB", citation := "sB" }]
        (fun _ => RunResult.err "primary boom")
        (fun _ => RunResult.err "fallback boom"))).length = 2 := by
  have h := verifyAll_ordered_complete
    [{ id := "a", index := 1, order := some 2, claim := "cA", citation := "sA" },
     { id := "b", index := 2, order := some 1, claim := "cB", citation := "sB" }]
    (fun _ => RunResult.err "primary boom")
    (fun _ => RunResult.err "fallback boom")
    (fun _ v hv => RunResult.noConfusion hv)
    (fun _ v hv => RunResult.noConfusion hv)
  exact ⟨h.2.2.1.trans (by rfl), h.2.1.trans (by rfl)⟩

/-- C2: in any resolving run, a footnote whose primary run was rejected
with a "timed out" message gets, at its own position, the Quick Verify
result when that fallback resolved — and the `source_unavailable`
placeholder carrying the failure reason when the fallback also failed;
every other footnote's result is its own outcome, untouched by this
footnote's timeout; the batch still has one result per footnote; the
primary timeout message does satisfy the `includes("timed out")` test;
and the Quick Verify timeout (15000 ms) is shorter than the default
per-item timeout (60000 ms). -/
theorem verifyAll_timeout_quick_fallback (footnotes : List FootnoteRec)
    (primary fallback : Nat → RunResult) (events : List Nat)
    (out : List VerificationRecord) (j : Nat) (msg : String)
    (hres : (verifyAllFootnotesModel footnotes primary fallback
        events).resolvedWith = some out)
    (hj : j < (sortFootnotes footnotes).length)
    (htimeout : primary j = RunResult.err msg)
    (hmsg : strIncludes msg "timed out" = true) :
    out.length = (sortFootnotes footnotes).length ∧
    out.get? j = some (match fallback j with
      | RunResult.ok v => v
      | RunResult.err m =>
        placeholderVerification
          ((sortFootnotes footnotes).getD j dummyFootnote).id m) ∧
    (∀ k, k < (sortFootnotes footnotes).length → k ≠ j →
      out.get? k =
        some (footnoteOutcome footnotes primary fallback k)) ∧
    strIncludes (verificationTimeoutMessage DEFAULT_VERIFY_TIMEOUT_MS)
        "timed out" = true ∧
    QUICK_VERIFY_TIMEOUT_MS < DEFAULT_VERIFY_TIMEOUT_MS := by
  have hout := (runSched_fullInv _ _ events).hok out hres
  subst hout
  refine ⟨canonicalResults_length _ _, ?_, ?_,
    timeoutMessage_includes DEFAULT_VERIFY_TIMEOUT_MS, by decide⟩
  · rw [canonicalResults_get? _ _ j hj]
    congr 1
    unfold footnoteOutcome taskResult
    rw [htimeout]
    dsimp only
    rw [if_pos hmsg]
  · intro k hk _
    exact canonicalResults_get? _ _ k hk

/-- C2 witness: one footnote whose primary run times out with the
default-timeout message and whose Quick Verify fallback also fails: the
single-event run resolves with exactly the `source_unavailable`
placeholder carrying the fallback's failure reason. -/
theorem verifyAll_timeout_quick_fallback_witness :
    (verifyAllFootnotesModel
        [{ id := "x", index := 1, claim := "c", citation := "s" }]
        (fun _ => RunResult.err (verificationTimeoutMessage 60000))
        (fun _ => RunResult.err "quick fail")
        [0]).resolvedWith =
      some [placeholderVerification "x" "quick fail"] ∧
    (canonicalResults (sortFootnotes
        [{ id := "x", index := 1, claim := "c", citation := "s" }]).length
      (footnoteOutcome
        [{ id := "x", index := 1, claim := "c", citation := "s" }]
        (fun _ => RunResult.err (verificationTimeoutMessage 60000))
        (fun _ => RunResult.err "quick fail"))).get? 0 =
      some (placeholderVerification "x" "quick fail") := by
  have hres : (verifyAllFootnotesModel
      [{ id := "x", index := 1, claim := "c", citation := "s" }]
      (fun _ => RunResult.err (verificationTimeoutMessage 60000))
      (fun _ => RunResult.err "quick fail")
      [0]).resolvedWith =
      some [placeholderVerification "x" "quick fail"] := by rfl
  have h := verifyAll_timeout_quick_fallback
    [{ id := "x", index := 1, claim := "c", citation := "s" }]
    (fun _ => RunResult.err (verificationTimeoutMessage 60000))
    (fun _ => RunResult.err "quick fail")
    [0] [placeholderVerification "x" "quick fail"] 0
    (verificationTimeoutMessage 60000) hres (by decide) rfl
    (timeoutMessage_includes 60000)
  exact ⟨hres, h.2.1⟩

end Cider
